import Mathlib

/-!
SynapseQuest dialogue core

A shallow embedding of `USQDialogueComponent::ParseResponse` and of the
dialogue flow (`StartDialogue`, `SelectOption`, `EndDialogue`,
`HandleLLMResponse`, `SetDialogueState`, `BuildTemplateVariables`) of
`Source/SynapseQuest/Dialogue/SQDialogueComponent.cpp`, and of the data
types of `SQDialogueTypes.h`, followed by theorems about them.  An
operation of the dialogue flow returns the new component together with the
list of its calls to the chat backend and of its broadcasts.

An engine string (`FString`) is modelled as the list of its characters.
The engine string routines used by the parser (`TrimStartAndEnd`, `Find`,
`StartsWith`, `Mid`, `Left`, `FindChar`, `FindLastChar`,
`ParseIntoArrayLines`) belong to the game engine, not to this repository;
they are modelled in the namespace `FString` from their documented
behaviour.  Case-insensitive comparison folds the letters `A`..`Z` only,
`INDEX_NONE` is modelled by `none`, and a string holds no NUL character.
The engine map `TMap<FString, FString>` is modelled as the list of its
pairs, with keys matched ignoring case as the engine matches them.

The definitions named `Spec...` are written from the prose specification
(§4.2) and are compared with the embedding of the code.
-/

namespace SynapseQuest

/-- An engine string, as the sequence of its characters. -/
abbrev FString := List Char

namespace FString

/-- Engine `FChar::IsWhitespace`: space, tab, line feed, vertical tab, form
feed and carriage return. -/
def IsWhitespace (c : Char) : Bool :=
  c == ' ' || c == Char.ofNat 9 || c == Char.ofNat 10 || c == Char.ofNat 11
    || c == Char.ofNat 12 || c == Char.ofNat 13

/-- Engine `FString::TrimStart`: drops the leading whitespace. -/
def TrimStart (s : FString) : FString :=
  s.dropWhile IsWhitespace

/-- Engine `FString::TrimEnd`: drops the trailing whitespace. -/
def TrimEnd (s : FString) : FString :=
  (s.reverse.dropWhile IsWhitespace).reverse

/-- Engine `FString::TrimStartAndEnd`: trims the end, then the start. -/
def TrimStartAndEnd (s : FString) : FString :=
  TrimStart (TrimEnd s)

/-- Engine `FString::Mid(Start)`: the characters from position `Start` on. -/
def Mid (s : FString) (Start : Nat) : FString :=
  s.drop Start

/-- Engine `FString::Left(Count)`: the first `Count` characters. -/
def Left (s : FString) (Count : Nat) : FString :=
  s.take Count

/-- Case-insensitive equality of two characters (letters `A`..`Z` folded). -/
def EqIgnoreCase (a b : Char) : Bool :=
  a.toLower == b.toLower

/-- Whether `pre` matches the beginning of `s`, ignoring case
(`Strnicmp(s, pre, Len(pre)) == 0`). -/
def MatchesAt : FString → FString → Bool
  | _, [] => true
  | [], _ :: _ => false
  | c :: s, p :: pre => EqIgnoreCase c p && MatchesAt s pre

/-- Engine `FString::StartsWith(Prefix, ESearchCase::IgnoreCase)`; the search
case defaults to `IgnoreCase`, and an empty prefix never matches. -/
def StartsWith (s pre : FString) : Bool :=
  !pre.isEmpty && MatchesAt s pre

/-- Engine `FString::Find(SubStr, ESearchCase::IgnoreCase)`: the position of
the first case-insensitive occurrence of `sub`, scanning from the start. -/
def Find : FString → FString → Option Nat
  | [], _ => none
  | c :: s, sub =>
    if MatchesAt (c :: s) sub then some 0 else (Find s sub).map (· + 1)

/-- Engine `FString::FindChar`: the position of the first `ch`. -/
def FindChar : FString → Char → Option Nat
  | [], _ => none
  | c :: s, ch => if c = ch then some 0 else (FindChar s ch).map (· + 1)

/-- Engine `FString::FindLastChar`: the position of the last `ch`. -/
def FindLastChar : FString → Char → Option Nat
  | [], _ => none
  | c :: s, ch =>
    match FindLastChar s ch with
    | some i => some (i + 1)
    | none => if c = ch then some 0 else none

/-- The tail of `ParseIntoArray`: the substring before a delimiter (or the
one left at the end) is added unless it is empty and empties are culled. -/
def AddSubstring (InCullEmpty : Bool) (cur : FString) (rest : List FString) :
    List FString :=
  if !InCullEmpty || !cur.isEmpty then cur :: rest else rest

/-- The scanning loop of `ParseIntoArray` for the line endings `"\r\n"`,
`"\r"`, `"\n"`: `cur` is the substring begun so far and `afterCR` says that
the previous character was a carriage return, so that a line feed right
after it belongs to the same two-character delimiter. -/
def ParseIntoArrayLinesLoop (InCullEmpty : Bool) :
    FString → FString → Bool → List FString
  | [], cur, _ => AddSubstring InCullEmpty cur []
  | c :: s, cur, afterCR =>
    if c = Char.ofNat 13 then
      AddSubstring InCullEmpty cur (ParseIntoArrayLinesLoop InCullEmpty s [] true)
    else if c = Char.ofNat 10 then
      if afterCR then ParseIntoArrayLinesLoop InCullEmpty s cur false
      else AddSubstring InCullEmpty cur (ParseIntoArrayLinesLoop InCullEmpty s [] false)
    else ParseIntoArrayLinesLoop InCullEmpty s (cur ++ [c]) false

/-- Engine `FString::ParseIntoArrayLines(OutArray, InCullEmpty)`: the pieces
of `s` between line endings, the empty ones left out when `InCullEmpty` is
set (the parser always sets it). -/
def ParseIntoArrayLines (s : FString) (InCullEmpty : Bool) : List FString :=
  ParseIntoArrayLinesLoop InCullEmpty s [] false

end FString

open FString

/-- The tone of a dialogue option (`SQDialogueTypes.h`). -/
inductive ESQDialogueTone where
  | Paragon
  | Neutral
  | Renegade
  deriving DecidableEq, Repr

/-- One selectable response of the dialogue wheel; `Text` is the short label
and `Tone` defaults to `Neutral`. -/
structure FSQDialogueOption where
  Text : FString
  Tone : ESQDialogueTone
  FullResponse : FString
  deriving DecidableEq, Repr

/-- A complete NPC dialogue turn. -/
structure FSQDialogueLine where
  NPCText : FString
  Options : List FSQDialogueOption
  bIsGoodbye : Bool
  deriving DecidableEq, Repr

/-- The marker `[OPTIONS]`. -/
def OptionsTag : FString := "[OPTIONS]".toList

/-- The tone tag `[PARAGON]`. -/
def ParagonTag : FString := "[PARAGON]".toList

/-- The tone tag `[NEUTRAL]`. -/
def NeutralTag : FString := "[NEUTRAL]".toList

/-- The tone tag `[RENEGADE]`. -/
def RenegadeTag : FString := "[RENEGADE]".toList

/-- The tag `[GOODBYE]`. -/
def GoodbyeTag : FString := "[GOODBYE]".toList

/-- The default option `Continue...` of `ParseResponse`. -/
def ContinueOption : FSQDialogueOption :=
  ⟨"Continue...".toList, ESQDialogueTone.Neutral, "Continue the conversation.".toList⟩

/-- The default option `Goodbye` of `ParseResponse`. -/
def GoodbyeOption : FSQDialogueOption :=
  ⟨"Goodbye".toList, ESQDialogueTone.Neutral, "Goodbye".toList⟩

/-- The split of the response on the marker (`ParseResponse`, the block that
sets `NPCPart` and `OptionsPart`): the pair `(NPCPart, OptionsPart)`.  The
first branch is taken when the last `[` of the text begins the marker. -/
def SplitOnOptionsTag (ResponseText : FString) : FString × FString :=
  if (match FindLastChar ResponseText '[' with
      | some OptionsIdx => StartsWith (Mid ResponseText OptionsIdx) OptionsTag
      | none => false) then
    match Find ResponseText OptionsTag with
    | some TagPos =>
      (TrimStartAndEnd (Left ResponseText TagPos),
        TrimStartAndEnd (Mid ResponseText (TagPos + 9)))
    | none => (TrimStartAndEnd ResponseText, [])
  else
    match Find ResponseText OptionsTag with
    | some TagPos =>
      (TrimStartAndEnd (Left ResponseText TagPos),
        TrimStartAndEnd (Mid ResponseText (TagPos + 9)))
    | none => (TrimStartAndEnd ResponseText, [])

/-- The end of the loop body of `ParseResponse` for a line that is not a
goodbye line: the split on the first pipe and the addition of the option
when its label is not empty. -/
def AddPipeOption (Line : FSQDialogueLine) (Tone : ESQDialogueTone)
    (Trimmed : FString) : FSQDialogueLine :=
  let Option : FSQDialogueOption :=
    match FindChar Trimmed '|' with
    | some PipeIdx =>
      ⟨TrimStartAndEnd (Left Trimmed PipeIdx), Tone,
        TrimStartAndEnd (Mid Trimmed (PipeIdx + 1))⟩
    | none => ⟨Trimmed, Tone, Trimmed⟩
  if !Option.Text.isEmpty then
    ⟨Line.NPCText, Line.Options ++ [Option], Line.bIsGoodbye⟩
  else Line

/-- The loop body of `ParseResponse`: one raw line of the options block. -/
def ParseOptionLine (Line : FSQDialogueLine) (RawLine : FString) :
    FSQDialogueLine :=
  let Trimmed := TrimStartAndEnd RawLine
  if Trimmed.isEmpty then Line
  else if StartsWith Trimmed ParagonTag then
    AddPipeOption Line ESQDialogueTone.Paragon (TrimStartAndEnd (Mid Trimmed 9))
  else if StartsWith Trimmed NeutralTag then
    AddPipeOption Line ESQDialogueTone.Neutral (TrimStartAndEnd (Mid Trimmed 9))
  else if StartsWith Trimmed RenegadeTag then
    AddPipeOption Line ESQDialogueTone.Renegade (TrimStartAndEnd (Mid Trimmed 10))
  else if StartsWith Trimmed GoodbyeTag then
    let Rest := TrimStartAndEnd (Mid Trimmed 9)
    let Label := if Rest.isEmpty then "Goodbye".toList else Rest
    ⟨Line.NPCText,
      Line.Options ++ [⟨Label, ESQDialogueTone.Neutral, Label⟩], true⟩
  else AddPipeOption Line ESQDialogueTone.Neutral Trimmed

/-- The raw lines of an options block, as the loop of `ParseResponse` sees
them; an empty block is not split at all. -/
def OptionLines (OptionsPart : FString) : List FString :=
  if !OptionsPart.isEmpty then ParseIntoArrayLines OptionsPart true else []

/-- The line after the loop over the options block, before the default
options are considered. -/
def ParseOptionsBlock (NPCPart OptionsPart : FString) : FSQDialogueLine :=
  (OptionLines OptionsPart).foldl ParseOptionLine ⟨NPCPart, [], false⟩

/-- The last step of `ParseResponse`: a line without options gets the two
default options and becomes a goodbye line. -/
def EnsureOptions (Line : FSQDialogueLine) : FSQDialogueLine :=
  if Line.Options.length = 0 then
    ⟨Line.NPCText, Line.Options ++ [ContinueOption, GoodbyeOption], true⟩
  else Line

/-- The embedding of `USQDialogueComponent::ParseResponse`. -/
def ParseResponse (ResponseText : FString) : FSQDialogueLine :=
  EnsureOptions
    (ParseOptionsBlock (SplitOnOptionsTag ResponseText).1
      (SplitOnOptionsTag ResponseText).2)

/-- Whether `T` begins with `tag`, ignoring the case of letters. -/
def HasTag (T tag : FString) : Prop :=
  (T.take tag.length).map Char.toLower = tag.map Char.toLower

instance instDecidableHasTag (T tag : FString) : Decidable (HasTag T tag) :=
  inferInstanceAs
    (Decidable ((T.take tag.length).map Char.toLower = tag.map Char.toLower))

/-- Whether `sub` occurs in `text` at position `P`, ignoring case. -/
def OccursAt (text sub : FString) (P : Nat) : Prop :=
  HasTag (text.drop P) sub

instance instDecidableOccursAt (text sub : FString) (P : Nat) :
    Decidable (OccursAt text sub P) :=
  inferInstanceAs (Decidable (HasTag (text.drop P) sub))

/-- Spec §4.2 step 3, the text of an option line after its tag: a line that
begins with `[PARAGON]`, `[NEUTRAL]`, `[RENEGADE]` or `[GOODBYE]` loses that
tag and is trimmed again; any other line is kept whole. -/
def SpecRemainder (T : FString) : FString :=
  if HasTag T ParagonTag ∨ HasTag T NeutralTag ∨ HasTag T GoodbyeTag then
    TrimStartAndEnd (T.drop 9)
  else if HasTag T RenegadeTag then TrimStartAndEnd (T.drop 10)
  else T

/-- Spec §4.2 step 3, the tone of an option line: the tone its tag names,
`Neutral` for `[GOODBYE]` and for a line without a tag. -/
def SpecTone (T : FString) : ESQDialogueTone :=
  if HasTag T ParagonTag then ESQDialogueTone.Paragon
  else if HasTag T RenegadeTag then ESQDialogueTone.Renegade
  else ESQDialogueTone.Neutral

/-- Spec §4.2 step 3, the label of a line that is not a goodbye line: the
trimmed text before the first pipe, or the whole text without a pipe. -/
def SpecLabel (s : FString) : FString :=
  if '|' ∈ s then TrimStartAndEnd (s.takeWhile (fun c => c != '|')) else s

/-- Spec §4.2 step 3, the full response of a line that is not a goodbye
line: the trimmed text after the first pipe, or the whole text without a
pipe. -/
def SpecFullResponse (s : FString) : FString :=
  if '|' ∈ s then TrimStartAndEnd ((s.dropWhile (fun c => c != '|')).drop 1)
  else s

/-- Spec §4.2 step 3, the per-line rule applied to a trimmed line that is
not blank: the option the line yields, or `none` when it is discarded. -/
def SpecOptionOfLine (T : FString) : Option FSQDialogueOption :=
  if HasTag T GoodbyeTag then
    some ⟨if SpecRemainder T = [] then "Goodbye".toList else SpecRemainder T,
      ESQDialogueTone.Neutral,
      if SpecRemainder T = [] then "Goodbye".toList else SpecRemainder T⟩
  else if SpecLabel (SpecRemainder T) = [] then none
  else
    some ⟨SpecLabel (SpecRemainder T), SpecTone T,
      SpecFullResponse (SpecRemainder T)⟩

/-- Spec §4.2 step 2: the options block is split into lines, each line is
trimmed, and the blank ones are discarded. -/
def SpecLines (block : FString) : List FString :=
  ((ParseIntoArrayLines block false).map TrimStartAndEnd).filter
    (fun l => !l.isEmpty)

/-- Whether `o` is a conversation-ending option for the options block
`block`: the option that a `[GOODBYE]` line of the block yields, or the
default option `Goodbye`. -/
def IsEndingOption (block : FString) (o : FSQDialogueOption) : Prop :=
  o = GoodbyeOption ∨
    ∃ T ∈ SpecLines block, HasTag T GoodbyeTag ∧ SpecOptionOfLine T = some o

instance instDecidableIsEndingOption (block : FString) (o : FSQDialogueOption) :
    Decidable (IsEndingOption block o) :=
  inferInstanceAs
    (Decidable (o = GoodbyeOption ∨
      ∃ T ∈ SpecLines block, HasTag T GoodbyeTag ∧ SpecOptionOfLine T = some o))

/-- The state of the dialogue system (`SQDialogueTypes.h`). -/
inductive ESQDialogueState where
  | Inactive
  | WaitingForNPC
  | PlayerChoosing
  | Ending
  deriving DecidableEq, Repr

/-- Engine `FString::operator==` (`Equals` with `ESearchCase::IgnoreCase`):
the two strings are equal up to the case of the letters `A`..`Z`. -/
def FString.EqualsIgnoreCase (a b : FString) : Bool :=
  a.map Char.toLower == b.map Char.toLower

/-- Engine `TMap<FString, FString>`, as the list of its pairs.  The map
tells its keys apart as `FString` values are compared and hashed, that is
ignoring case: `NPCName` and `npcname` are one key. -/
abbrev TMap := List (FString × FString)

/-- Engine `TMap::Add`: sets the value of `Key`; a pair whose key matches
`Key` (ignoring case) is replaced, key and value, by the new pair, which is
added at the end when no key matches. -/
def TMap.Add : TMap → FString → FString → TMap
  | [], Key, Value => [(Key, Value)]
  | (k, v) :: m, Key, Value =>
    if EqualsIgnoreCase k Key then (Key, Value) :: m else (k, v) :: TMap.Add m Key Value

/-- Engine `TMap::Find`: the value of the pair whose key matches `Key`
(ignoring case), if the map has one. -/
def TMap.Find : TMap → FString → Option FString
  | [], _ => none
  | (k, v) :: m, Key => if EqualsIgnoreCase k Key then some v else TMap.Find m Key

/-- Modelled from the spec: the response payload of the chat backend (§6,
`isSuccess`, `content`, `errorMessage`).  The type `FSynapseResponse`, with
its method `IsSuccess()`, is declared by the backend plugin and not by this
repository. -/
structure FSynapseResponse where
  IsSuccess : Bool
  Content : FString
  ErrorMessage : FString
  deriving DecidableEq, Repr

/-- What an operation of the component does to the outside, in the order in
which the code does it: the calls to the chat backend (`USynapseComponent`:
`ClearHistory`, the assignment to `bUseConversationHistory`,
`ChatWithSystem`, `Chat`, `CancelAllRequests`) and the broadcasts to the
observers (`OnDialogueStateChanged`, `OnDialogueLineReady`,
`OnDialogueEnded`).  An observer is taken not to call the component back
while a broadcast is under way. -/
inductive Effect where
  | ClearHistory
  | SetUseConversationHistory (bUse : Bool)
  | ChatWithSystem (SystemPrompt UserPrompt : FString) (Vars : TMap)
  | Chat (Message : FString) (Vars : TMap)
  | CancelAllRequests
  | OnDialogueStateChanged (NewState : ESQDialogueState)
  | OnDialogueLineReady (Line : FSQDialogueLine)
  | OnDialogueEnded
  deriving DecidableEq, Repr

/-- Whether an effect is a chat request to the backend. -/
def Effect.IsChatRequest : Effect → Bool
  | Effect.ChatWithSystem _ _ _ => true
  | Effect.Chat _ _ => true
  | _ => false

/-- The fields of `USQDialogueComponent` (`SQDialogueComponent.h`) that the
dialogue flow reads or writes: the configuration (`NPCName`,
`OpeningPrompt`, `ExtraTemplateVariables`) and the conversation
(`DialogueState`, `CurrentLine`, `CurrentPlayerName`).  Whether
`GetSynapseComponent()` returns a valid backend is an input of each
operation (the argument `Synapse`). -/
structure USQDialogueComponent where
  NPCName : FString
  OpeningPrompt : FString
  ExtraTemplateVariables : TMap
  DialogueState : ESQDialogueState
  CurrentLine : FSQDialogueLine
  CurrentPlayerName : FString
  deriving DecidableEq, Repr

/-- The default-constructed line `FSQDialogueLine()`. -/
def DefaultLine : FSQDialogueLine := ⟨[], [], false⟩

/-- The embedding of `USQDialogueComponent::GetDialogueSystemPrompt`. -/
def GetDialogueSystemPrompt : FString :=
  ("You are an NPC character named \x7bNPCName\x7d in an interactive video game. " ++
    "You are having a conversation with a player named \x7bPlayerName\x7d.\n" ++
    "\n" ++
    "IMPORTANT: You must format EVERY response exactly as follows:\n" ++
    "\n" ++
    "First, write your character's dialogue — what \x7bNPCName\x7d says out loud. " ++
    "Keep it natural, in-character, and 1-3 paragraphs.\n" ++
    "\n" ++
    "Then, after your dialogue, provide EXACTLY 3-4 response options for the " ++
    "player using this EXACT format:\n" ++
    "\n" ++
    "[OPTIONS]\n" ++
    "[PARAGON] Short friendly label | The full friendly response the player would say\n" ++
    "[NEUTRAL] Short neutral label | The full neutral/investigative response the player would say\n" ++
    "[RENEGADE] Short aggressive label | The full aggressive/rude response the player would say\n" ++
    "[GOODBYE] Leave\n" ++
    "\n" ++
    "Rules:\n" ++
    "- The short label (before the |) should be 2-6 words summarizing the tone.\n" ++
    "- The full response (after the |) is what the player actually says.\n" ++
    "- Always include [PARAGON], [NEUTRAL], [RENEGADE], and [GOODBYE] options.\n" ++
    "- The [GOODBYE] option ends the conversation.\n" ++
    "- Stay in character at all times.\n" ++
    "- React appropriately to the player's chosen tone.\n" ++
    "- Do NOT break the fourth wall or mention that you are an AI.\n").toList

/-- The embedding of `USQDialogueComponent::BuildTemplateVariables`. -/
def BuildTemplateVariables (c : USQDialogueComponent) : TMap :=
  TMap.Add (TMap.Add c.ExtraTemplateVariables "NPCName".toList c.NPCName)
    "PlayerName".toList c.CurrentPlayerName

/-- The embedding of `USQDialogueComponent::SetDialogueState`: the new
component and the broadcast, made only when the state changes. -/
def SetDialogueState (c : USQDialogueComponent) (NewState : ESQDialogueState) :
    USQDialogueComponent × List Effect :=
  if c.DialogueState ≠ NewState then
    ({ c with DialogueState := NewState }, [Effect.OnDialogueStateChanged NewState])
  else (c, [])

/-- The embedding of `USQDialogueComponent::StartDialogue`. -/
def StartDialogue (Synapse : Bool) (c : USQDialogueComponent) (PlayerName : FString) :
    USQDialogueComponent × List Effect :=
  if c.DialogueState ≠ ESQDialogueState.Inactive then (c, [])
  else if !Synapse then (c, [])
  else
    let r := SetDialogueState { c with CurrentPlayerName := PlayerName }
      ESQDialogueState.WaitingForNPC
    (r.1,
      [Effect.ClearHistory, Effect.SetUseConversationHistory true] ++ r.2 ++
        [Effect.ChatWithSystem GetDialogueSystemPrompt r.1.OpeningPrompt
          (BuildTemplateVariables r.1)])

/-- The embedding of `USQDialogueComponent::EndDialogue`. -/
def EndDialogue (Synapse : Bool) (c : USQDialogueComponent) :
    USQDialogueComponent × List Effect :=
  if c.DialogueState = ESQDialogueState.Inactive then (c, [])
  else
    let r := SetDialogueState
      { c with CurrentLine := DefaultLine, CurrentPlayerName := [] }
      ESQDialogueState.Inactive
    (r.1,
      (if Synapse then [Effect.CancelAllRequests] else []) ++ r.2 ++
        [Effect.OnDialogueEnded])

/-- Engine `TArray::IsValidIndex`. -/
def IsValidIndex (Options : List FSQDialogueOption) (Index : Int) : Bool :=
  decide (0 ≤ Index) && decide (Index < (Options.length : Int))

/-- The embedding of `USQDialogueComponent::SelectOption`; `OptionIndex` is
an `int32`.  The element `Options[OptionIndex]` is read after the index was
found valid, so the case `none` is never taken. -/
def SelectOption (Synapse : Bool) (c : USQDialogueComponent) (OptionIndex : Int) :
    USQDialogueComponent × List Effect :=
  if c.DialogueState ≠ ESQDialogueState.PlayerChoosing then (c, [])
  else if !IsValidIndex c.CurrentLine.Options OptionIndex then (c, [])
  else
    match c.CurrentLine.Options[OptionIndex.toNat]? with
    | none => (c, [])
    | some Option =>
      if c.CurrentLine.bIsGoodbye &&
          decide (OptionIndex = (c.CurrentLine.Options.length : Int) - 1) then
        EndDialogue Synapse c
      else if !Synapse then (c, [])
      else
        let r := SetDialogueState c ESQDialogueState.WaitingForNPC
        let MessageToSend :=
          if Option.FullResponse.isEmpty then Option.Text else Option.FullResponse
        (r.1, r.2 ++ [Effect.Chat MessageToSend (BuildTemplateVariables r.1)])

/-- The line that `HandleLLMResponse` builds when the backend reports an
error: the message is put into the text by `FString::Printf`. -/
def ErrorLine (ErrorMessage : FString) : FSQDialogueLine :=
  ⟨"(I seem to have lost my train of thought... [".toList ++ ErrorMessage ++ "])".toList,
    [⟨"Leave".toList, ESQDialogueTone.Neutral, []⟩], true⟩

/-- The embedding of `USQDialogueComponent::HandleLLMResponse`. -/
def HandleLLMResponse (c : USQDialogueComponent) (Response : FSynapseResponse) :
    USQDialogueComponent × List Effect :=
  if c.DialogueState ≠ ESQDialogueState.WaitingForNPC then (c, [])
  else if !Response.IsSuccess then
    let r := SetDialogueState { c with CurrentLine := ErrorLine Response.ErrorMessage }
      ESQDialogueState.PlayerChoosing
    (r.1, r.2 ++ [Effect.OnDialogueLineReady r.1.CurrentLine])
  else
    let r := SetDialogueState { c with CurrentLine := ParseResponse Response.Content }
      ESQDialogueState.PlayerChoosing
    (r.1, r.2 ++ [Effect.OnDialogueLineReady r.1.CurrentLine])

/-- One call of an entry point of the component. -/
inductive Operation where
  | Start (Synapse : Bool) (PlayerName : FString)
  | Select (Synapse : Bool) (OptionIndex : Int)
  | End (Synapse : Bool)
  | Response (Response : FSynapseResponse)
  deriving DecidableEq, Repr

/-- The effect of one call on the component. -/
def Apply (c : USQDialogueComponent) : Operation → USQDialogueComponent × List Effect
  | Operation.Start Synapse PlayerName => StartDialogue Synapse c PlayerName
  | Operation.Select Synapse OptionIndex => SelectOption Synapse c OptionIndex
  | Operation.End Synapse => EndDialogue Synapse c
  | Operation.Response Response => HandleLLMResponse c Response

/-- A sequence of calls, one after the other: the last component and all the
effects in order. -/
def Run : USQDialogueComponent → List Operation → USQDialogueComponent × List Effect
  | c, [] => (c, [])
  | c, op :: ops => ((Run (Apply c op).1 ops).1, (Apply c op).2 ++ (Run (Apply c op).1 ops).2)

/-- A component as it is constructed: no dialogue active, the default line,
no player name. -/
def InitialComponent (NPCName OpeningPrompt : FString) (Extra : TMap) :
    USQDialogueComponent :=
  ⟨NPCName, OpeningPrompt, Extra, ESQDialogueState.Inactive, DefaultLine, []⟩

/-- The components that a sequence of calls produces from a constructed
one. -/
def Reachable (c : USQDialogueComponent) : Prop :=
  ∃ (NPCName OpeningPrompt : FString) (Extra : TMap) (ops : List Operation),
    c = (Run (InitialComponent NPCName OpeningPrompt Extra) ops).1

/-- Spec §4.2 step 1: the position of the first case-insensitive occurrence
of the marker `[OPTIONS]` anywhere in the text, found by trying the positions
in order. -/
def SpecFirstMarker (text : FString) : Option Nat :=
  (List.range (text.length + 1)).find? (fun P => decide (OccursAt text OptionsTag P))

/-- The reference parser of spec §4.2 step 1: the text is split at the first
occurrence of the marker, whatever the last `[` of the text begins; the
options block is then read as `ParseResponse` reads it. -/
def RefParseResponse (text : FString) : FSQDialogueLine :=
  match SpecFirstMarker text with
  | some P =>
    EnsureOptions
      (ParseOptionsBlock (TrimStartAndEnd (text.take P))
        (TrimStartAndEnd (text.drop (P + 9))))
  | none => EnsureOptions (ParseOptionsBlock (TrimStartAndEnd text) [])

/-- The state that the state-changed broadcasts of a list of effects lead to
from the state `s`, or `none` when one of them carries the very state that
was held just before it. -/
def NotifiedState (s : ESQDialogueState) : List Effect → Option ESQDialogueState
  | [] => some s
  | Effect.OnDialogueStateChanged NewState :: es =>
    if NewState = s then none else NotifiedState NewState es
  | _ :: es => NotifiedState s es

/-- The keys of a map, as they are stored. -/
def TMap.Keys (m : TMap) : List FString :=
  m.map Prod.fst

theorem MatchesAt_iff_HasTag (s pre : FString) :
    MatchesAt s pre = true ↔ HasTag s pre := by
  unfold HasTag
  induction pre generalizing s with
  | nil => simp [MatchesAt]
  | cons p pre ih =>
    cases s with
    | nil => simp [MatchesAt]
    | cons c s => simp [MatchesAt, EqIgnoreCase, ih]

theorem StartsWith_eq_decide (s pre : FString) (hpre : pre ≠ []) :
    StartsWith s pre = decide (HasTag s pre) := by
  unfold StartsWith
  cases pre with
  | nil => exact absurd rfl hpre
  | cons p pre =>
    by_cases h : HasTag s (p :: pre)
    · simp [h, (MatchesAt_iff_HasTag s (p :: pre)).mpr h]
    · have : MatchesAt s (p :: pre) = false := by
        cases hm : MatchesAt s (p :: pre) with
        | false => rfl
        | true => exact absurd ((MatchesAt_iff_HasTag _ _).mp hm) h
      simp [h, this]

theorem not_HasTag_nil (sub : FString) (hsub : sub ≠ []) : ¬ HasTag [] sub := by
  cases sub with
  | nil => exact absurd rfl hsub
  | cons p sub => simp [HasTag]

theorem Find_eq_none_iff (s sub : FString) (hsub : sub ≠ []) :
    Find s sub = none ↔ ∀ P, ¬ OccursAt s sub P := by
  unfold OccursAt
  induction s with
  | nil =>
    simp only [Find, List.drop_nil, true_iff]
    exact fun _ => not_HasTag_nil sub hsub
  | cons c s ih =>
    constructor
    · intro h P
      by_cases hm : MatchesAt (c :: s) sub = true
      · simp [Find, hm] at h
      · simp only [Find, hm, Bool.false_eq_true, if_false, Option.map_eq_none'] at h
        cases P with
        | zero => simpa [← MatchesAt_iff_HasTag] using hm
        | succ P => simpa using (ih.mp h) P
    · intro h
      have h0 : ¬ MatchesAt (c :: s) sub = true := by
        have := h 0
        simpa [← MatchesAt_iff_HasTag] using this
      have hs : Find s sub = none := ih.mpr (fun P => by simpa using h (P + 1))
      simp [Find, h0, hs]

theorem Find_eq_some_of_first (s sub : FString) (hsub : sub ≠ []) (P : Nat)
    (hP : OccursAt s sub P) (hfirst : ∀ Q, Q < P → ¬ OccursAt s sub Q) :
    Find s sub = some P := by
  unfold OccursAt at hP hfirst
  induction s generalizing P with
  | nil => exact absurd (by simpa using hP) (not_HasTag_nil sub hsub)
  | cons c s ih =>
    by_cases hm : MatchesAt (c :: s) sub = true
    · cases P with
      | zero => simp [Find, hm]
      | succ P =>
        exact absurd (by simpa using (MatchesAt_iff_HasTag _ _).mp hm) (hfirst 0 (Nat.succ_pos P))
    · cases P with
      | zero => exact absurd ((MatchesAt_iff_HasTag _ _).mpr (by simpa using hP)) hm
      | succ P =>
        have := ih P (by simpa using hP)
          (fun Q hQ => by simpa using hfirst (Q + 1) (Nat.succ_lt_succ hQ))
        simp [Find, hm, this]

theorem Find_some_first (s sub : FString) (P : Nat) (h : Find s sub = some P) :
    OccursAt s sub P ∧ ∀ Q, Q < P → ¬ OccursAt s sub Q := by
  unfold OccursAt
  induction s generalizing P with
  | nil => simp [Find] at h
  | cons c s ih =>
    by_cases hm : MatchesAt (c :: s) sub = true
    · simp only [Find, hm, if_true, Option.some.injEq] at h
      subst h
      exact ⟨by simpa using (MatchesAt_iff_HasTag _ _).mp hm, fun Q hQ => absurd hQ (Nat.not_lt_zero Q)⟩
    · simp only [Find, hm, Bool.false_eq_true, if_false, Option.map_eq_some'] at h
      obtain ⟨P', hP', rfl⟩ := h
      obtain ⟨h1, h2⟩ := ih P' hP'
      refine ⟨by simpa using h1, fun Q hQ => ?_⟩
      cases Q with
      | zero => simpa [← MatchesAt_iff_HasTag] using hm
      | succ Q => simpa using h2 Q (Nat.lt_of_succ_lt_succ hQ)

theorem FindChar_eq_none_iff (s : FString) (ch : Char) :
    FindChar s ch = none ↔ ch ∉ s := by
  induction s with
  | nil => simp [FindChar]
  | cons c s ih =>
    by_cases h : c = ch
    · simp [FindChar, h]
    · have h2 : ¬ ch = c := fun e => h e.symm
      simp [FindChar, h, h2, ih]

theorem FindChar_eq_some_split (s : FString) (ch : Char) (i : Nat)
    (h : FindChar s ch = some i) :
    s.take i = s.takeWhile (fun c => c != ch) ∧
      s.drop (i + 1) = (s.dropWhile (fun c => c != ch)).drop 1 := by
  induction s generalizing i with
  | nil => simp [FindChar] at h
  | cons c s ih =>
    by_cases hc : c = ch
    · simp only [FindChar, hc, if_true, Option.some.injEq] at h
      subst h
      simp [hc, List.takeWhile, List.dropWhile]
    · simp only [FindChar, hc, if_false, Option.map_eq_some'] at h
      obtain ⟨j, hj, rfl⟩ := h
      obtain ⟨h1, h2⟩ := ih j hj
      have hne : (c != ch) = true := by simpa using hc
      simp [List.takeWhile, List.dropWhile, hne, h1, h2]

theorem HasTag_take (T a b : FString) (hab : b.length ≤ a.length)
    (ha : HasTag T a) (hb : HasTag T b) :
    (a.take b.length).map Char.toLower = b.map Char.toLower := by
  unfold HasTag at ha hb
  rw [← hb, List.map_take, ← ha, ← List.map_take, List.take_take,
    Nat.min_eq_left hab]

theorem not_Paragon_of_Goodbye (T : FString) (h : HasTag T GoodbyeTag) :
    ¬ HasTag T ParagonTag := fun h2 =>
  absurd (HasTag_take T GoodbyeTag ParagonTag (by decide) h h2) (by decide)

theorem not_Neutral_of_Goodbye (T : FString) (h : HasTag T GoodbyeTag) :
    ¬ HasTag T NeutralTag := fun h2 =>
  absurd (HasTag_take T GoodbyeTag NeutralTag (by decide) h h2) (by decide)

theorem not_Renegade_of_Goodbye (T : FString) (h : HasTag T GoodbyeTag) :
    ¬ HasTag T RenegadeTag := fun h2 =>
  absurd (HasTag_take T RenegadeTag GoodbyeTag (by decide) h2 h) (by decide)

theorem not_Renegade_of_Paragon (T : FString) (h : HasTag T ParagonTag) :
    ¬ HasTag T RenegadeTag := fun h2 =>
  absurd (HasTag_take T RenegadeTag ParagonTag (by decide) h2 h) (by decide)

theorem not_Renegade_of_Neutral (T : FString) (h : HasTag T NeutralTag) :
    ¬ HasTag T RenegadeTag := fun h2 =>
  absurd (HasTag_take T RenegadeTag NeutralTag (by decide) h2 h) (by decide)

theorem not_Neutral_of_Paragon (T : FString) (h : HasTag T ParagonTag) :
    ¬ HasTag T NeutralTag := fun h2 =>
  absurd (HasTag_take T ParagonTag NeutralTag (by decide) h h2) (by decide)

theorem isEmpty_eq_decide (s : FString) : s.isEmpty = decide (s = []) := by
  cases s <;> simp

theorem AddPipeOption_eq (Line : FSQDialogueLine) (Tone : ESQDialogueTone)
    (s : FString) :
    AddPipeOption Line Tone s =
      if SpecLabel s = [] then Line
      else ⟨Line.NPCText,
        Line.Options ++ [⟨SpecLabel s, Tone, SpecFullResponse s⟩],
        Line.bIsGoodbye⟩ := by
  unfold AddPipeOption SpecLabel SpecFullResponse
  cases h : FindChar s '|' with
  | none =>
    have hmem : '|' ∉ s := (FindChar_eq_none_iff s '|').mp h
    simp only [hmem, if_false, isEmpty_eq_decide]
    by_cases hs : s = [] <;> simp [hs]
  | some i =>
    have hmem : '|' ∈ s := by
      by_contra hc
      rw [(FindChar_eq_none_iff s '|').mpr hc] at h
      exact Option.noConfusion h
    obtain ⟨h1, h2⟩ := FindChar_eq_some_split s '|' i h
    simp only [hmem, if_true, isEmpty_eq_decide, Left, Mid, h1, h2]
    by_cases hs : TrimStartAndEnd (List.takeWhile (fun c => c != '|') s) = [] <;>
      simp [hs]

theorem ParseOptionLine_eq (Line : FSQDialogueLine) (RawLine : FString) :
    ParseOptionLine Line RawLine =
      if TrimStartAndEnd RawLine = [] then Line
      else
        match SpecOptionOfLine (TrimStartAndEnd RawLine) with
        | none => Line
        | some o =>
          ⟨Line.NPCText, Line.Options ++ [o],
            Line.bIsGoodbye || decide (HasTag (TrimStartAndEnd RawLine) GoodbyeTag)⟩ := by
  unfold ParseOptionLine
  simp only [StartsWith_eq_decide _ ParagonTag (by decide),
    StartsWith_eq_decide _ NeutralTag (by decide),
    StartsWith_eq_decide _ RenegadeTag (by decide),
    StartsWith_eq_decide _ GoodbyeTag (by decide), isEmpty_eq_decide,
    decide_eq_true_eq, AddPipeOption_eq, Mid]
  generalize TrimStartAndEnd RawLine = T
  by_cases hT : T = []
  · simp [hT]
  simp only [hT, if_false]
  by_cases hP : HasTag T ParagonTag
  · have hN := not_Neutral_of_Paragon T hP
    have hR := not_Renegade_of_Paragon T hP
    have hG : ¬ HasTag T GoodbyeTag := fun h => not_Paragon_of_Goodbye T h hP
    simp only [hP, hG, if_true, if_false, SpecOptionOfLine, SpecRemainder, SpecTone,
      true_or]
    split <;> simp
  by_cases hN : HasTag T NeutralTag
  · have hR := not_Renegade_of_Neutral T hN
    have hG : ¬ HasTag T GoodbyeTag := fun h => not_Neutral_of_Goodbye T h hN
    simp only [hP, hN, hR, hG, if_true, if_false, SpecOptionOfLine, SpecRemainder, SpecTone,
      true_or, or_true]
    split <;> simp
  by_cases hR : HasTag T RenegadeTag
  · have hG : ¬ HasTag T GoodbyeTag := fun h => not_Renegade_of_Goodbye T h hR
    simp only [hP, hN, hR, hG, if_true, if_false, SpecOptionOfLine, SpecRemainder, SpecTone,
      or_self]
    split <;> simp
  by_cases hG : HasTag T GoodbyeTag
  · simp only [hP, hN, hR, hG, if_true, if_false, SpecOptionOfLine, SpecRemainder,
      or_true, false_or]
    by_cases hr : TrimStartAndEnd (List.drop 9 T) = [] <;> simp [hr]
  · simp only [hP, hN, hR, hG, if_false, SpecOptionOfLine, SpecRemainder, SpecTone,
      or_self]
    split <;> simp

theorem TrimStartAndEnd_nil : TrimStartAndEnd [] = [] := rfl

theorem not_HasTag_Goodbye_of_none (T : FString)
    (h : SpecOptionOfLine T = none) : ¬ HasTag T GoodbyeTag := by
  intro hG
  simp [SpecOptionOfLine, hG] at h

theorem foldl_ParseOptionLine (lines : List FString) (Line : FSQDialogueLine) :
    lines.foldl ParseOptionLine Line =
      ⟨Line.NPCText,
        Line.Options ++
          ((lines.map TrimStartAndEnd).filter (fun l => !l.isEmpty)).filterMap
            SpecOptionOfLine,
        Line.bIsGoodbye ||
          lines.any (fun l => decide (HasTag (TrimStartAndEnd l) GoodbyeTag))⟩ := by
  induction lines generalizing Line with
  | nil => simp
  | cons l ls ih =>
    rw [List.foldl_cons, ih, ParseOptionLine_eq]
    by_cases hT : TrimStartAndEnd l = []
    · have hG : ¬ HasTag [] GoodbyeTag := not_HasTag_nil _ (by decide)
      simp [hT, hG]
    · cases ho : SpecOptionOfLine (TrimStartAndEnd l) with
      | none =>
        have hG := not_HasTag_Goodbye_of_none _ ho
        simp [hT, ho, hG, isEmpty_eq_decide]
      | some o =>
        simp [hT, ho, isEmpty_eq_decide, Bool.or_assoc]

theorem AddSubstring_cull (cur : FString) (rest : List FString) :
    AddSubstring true cur (rest.filter (fun l => !l.isEmpty)) =
      (AddSubstring false cur rest).filter (fun l => !l.isEmpty) := by
  cases cur <;> simp [AddSubstring]

theorem ParseIntoArrayLinesLoop_cull (s cur : FString) (afterCR : Bool) :
    ParseIntoArrayLinesLoop true s cur afterCR =
      (ParseIntoArrayLinesLoop false s cur afterCR).filter (fun l => !l.isEmpty) := by
  induction s generalizing cur afterCR with
  | nil =>
    simpa [ParseIntoArrayLinesLoop] using AddSubstring_cull cur []
  | cons c s ih =>
    unfold ParseIntoArrayLinesLoop
    by_cases h13 : c = Char.ofNat 13
    · simp only [h13, if_true, ih, AddSubstring_cull]
    · by_cases h10 : c = Char.ofNat 10
      · cases afterCR <;> simp [h13, h10, ih, AddSubstring_cull]
      · simp only [h13, h10, if_false, ih]

theorem filter_map_trim_filter (l : List FString) :
    ((l.filter (fun l => !l.isEmpty)).map TrimStartAndEnd).filter (fun l => !l.isEmpty) =
      (l.map TrimStartAndEnd).filter (fun l => !l.isEmpty) := by
  induction l with
  | nil => rfl
  | cons a l ih =>
    cases a with
    | nil => simpa [TrimStartAndEnd_nil] using ih
    | cons c a => simp [List.filter_cons, ih]

theorem OptionLines_eq (block : FString) :
    OptionLines block = ParseIntoArrayLines block true := by
  cases block with
  | nil => rfl
  | cons c s => simp [OptionLines]

theorem OptionLines_trim_filter (block : FString) :
    ((OptionLines block).map TrimStartAndEnd).filter (fun l => !l.isEmpty) =
      SpecLines block := by
  rw [OptionLines_eq, SpecLines, ParseIntoArrayLines, ParseIntoArrayLinesLoop_cull,
    filter_map_trim_filter, ParseIntoArrayLines]

theorem ParseOptionsBlock_eq (NPCPart OptionsPart : FString) :
    ParseOptionsBlock NPCPart OptionsPart =
      ⟨NPCPart, (SpecLines OptionsPart).filterMap SpecOptionOfLine,
        (OptionLines OptionsPart).any
          (fun l => decide (HasTag (TrimStartAndEnd l) GoodbyeTag))⟩ := by
  rw [ParseOptionsBlock, foldl_ParseOptionLine, OptionLines_trim_filter]
  simp

theorem SplitOnOptionsTag_eq (text : FString) :
    SplitOnOptionsTag text =
      match Find text OptionsTag with
      | some TagPos =>
        (TrimStartAndEnd (text.take TagPos), TrimStartAndEnd (text.drop (TagPos + 9)))
      | none => (TrimStartAndEnd text, []) := by
  unfold SplitOnOptionsTag
  split <;> rfl

theorem SpecOptionOfLine_label_ne_nil (T : FString) (o : FSQDialogueOption)
    (h : SpecOptionOfLine T = some o) : o.Text ≠ [] := by
  unfold SpecOptionOfLine at h
  by_cases hG : HasTag T GoodbyeTag
  · simp only [hG, if_true, Option.some.injEq] at h
    subst h
    by_cases hr : SpecRemainder T = []
    · simp [hr]
    · simp [hr]
  · by_cases hl : SpecLabel (SpecRemainder T) = []
    · simp [hG, hl] at h
    · simp only [hG, hl, if_false, Option.some.injEq] at h
      subst h
      exact hl

theorem EnsureOptions_options_ne_nil (Line : FSQDialogueLine) :
    (EnsureOptions Line).Options ≠ [] := by
  unfold EnsureOptions
  split
  · simp
  · rename_i h
    intro hnil
    exact h (by simp [hnil])

theorem EnsureOptions_NPCText (Line : FSQDialogueLine) :
    (EnsureOptions Line).NPCText = Line.NPCText := by
  unfold EnsureOptions
  split <;> rfl

theorem EnsureOptions_of_ne_nil (Line : FSQDialogueLine) (h : Line.Options ≠ []) :
    EnsureOptions Line = Line := by
  unfold EnsureOptions
  have : ¬ Line.Options.length = 0 := fun h0 => h (List.length_eq_zero.mp h0)
  simp [this]

theorem ParseResponse_of_first (text : FString) (P : Nat)
    (hP : OccursAt text OptionsTag P)
    (hfirst : ∀ Q, Q < P → ¬ OccursAt text OptionsTag Q) :
    ParseResponse text =
      EnsureOptions
        (ParseOptionsBlock (TrimStartAndEnd (text.take P))
          (TrimStartAndEnd (text.drop (P + 9)))) := by
  have hfind := Find_eq_some_of_first text OptionsTag (by decide) P hP hfirst
  simp [ParseResponse, SplitOnOptionsTag_eq, hfind]

theorem takeWhile_dropWhile_split (a b : FString) (ch : Char) (ha : ch ∉ a) :
    (a ++ ch :: b).takeWhile (fun c => c != ch) = a ∧
      (a ++ ch :: b).dropWhile (fun c => c != ch) = ch :: b := by
  induction a with
  | nil => simp [List.takeWhile, List.dropWhile]
  | cons c a ih =>
    have hc : (c != ch) = true := by
      have : ¬ c = ch := fun e => ha (by simp [e])
      simpa using this
    obtain ⟨h1, h2⟩ := ih (fun hmem => ha (List.mem_cons_of_mem _ hmem))
    simp [List.takeWhile, List.dropWhile, hc, h1, h2]

theorem filterMap_source_order {α β : Type} (f : α → Option β) (l : List α) :
    ∃ g : ℕ → ℕ, StrictMono g ∧
      ∀ i b, (l.filterMap f)[i]? = some b → ∃ a, l[g i]? = some a ∧ f a = some b := by
  induction l with
  | nil => exact ⟨id, strictMono_id, by simp⟩
  | cons x l ih =>
    obtain ⟨g, hg, hidx⟩ := ih
    cases hfx : f x with
    | none =>
      refine ⟨fun i => g i + 1, fun i j hij => Nat.succ_lt_succ (hg hij), ?_⟩
      intro i b hb
      rw [List.filterMap_cons_none hfx] at hb
      simpa using hidx i b hb
    | some y =>
      refine ⟨fun i => Nat.casesOn i 0 (fun k => g k + 1), ?_, ?_⟩
      · apply strictMono_nat_of_lt_succ
        intro n
        cases n with
        | zero => exact Nat.succ_pos _
        | succ n => exact Nat.succ_lt_succ (hg (Nat.lt_succ_self n))
      · intro i b hb
        rw [List.filterMap_cons_some hfx] at hb
        cases i with
        | zero =>
          simp only [List.getElem?_cons_zero, Option.some.injEq] at hb
          subst hb
          exact ⟨x, by simp, hfx⟩
        | succ i =>
          simp only [List.getElem?_cons_succ] at hb
          simpa using hidx i b hb

/-- C1: for every response text, `ParseResponse` returns a line (it is a
total function) and the option list of that line is not empty. -/
theorem ParseResponse_options_nonempty (text : FString) :
    (ParseResponse text).Options ≠ [] ∧ 0 < (ParseResponse text).Options.length := by
  have h := EnsureOptions_options_ne_nil
    (ParseOptionsBlock (SplitOnOptionsTag text).1 (SplitOnOptionsTag text).2)
  exact ⟨h, List.length_pos.mpr h⟩

/-- C2: for every response text, every option of the line returned by
`ParseResponse` has a label (`Text`) that is not empty. -/
theorem ParseResponse_labels_nonempty (text : FString) (o : FSQDialogueOption)
    (ho : o ∈ (ParseResponse text).Options) : o.Text ≠ [] := by
  unfold ParseResponse EnsureOptions at ho
  rw [ParseOptionsBlock_eq] at ho
  split at ho
  · rename_i h0
    have hnil := List.length_eq_zero.mp h0
    simp only at hnil
    simp only [hnil, List.nil_append, List.mem_cons, List.mem_singleton,
      List.not_mem_nil, or_false] at ho
    rcases ho with rfl | rfl <;> decide
  · simp only [List.mem_filterMap] at ho
    obtain ⟨T, _, hT⟩ := ho
    exact SpecOptionOfLine_label_ne_nil T o hT

theorem ParseResponse_labels_nonempty_witness :
    (⟨"Leave".toList, ESQDialogueTone.Neutral, "Leave".toList⟩ : FSQDialogueOption) ∈
        (ParseResponse "Hi\n[OPTIONS]\n[NEUTRAL] |x\n[GOODBYE] Leave".toList).Options ∧
      "Leave".toList ≠ [] :=
  ⟨by decide,
    ParseResponse_labels_nonempty "Hi\n[OPTIONS]\n[NEUTRAL] |x\n[GOODBYE] Leave".toList
      ⟨"Leave".toList, ESQDialogueTone.Neutral, "Leave".toList⟩ (by decide)⟩

/-- C4: for every response text without a case-insensitive occurrence of
`[OPTIONS]`, `ParseResponse` returns the trimmed text as NPC text, exactly
the two default options `Continue...` and `Goodbye` in that order, and the
goodbye flag set. -/
theorem ParseResponse_without_marker (text : FString)
    (hno : ∀ P, ¬ OccursAt text OptionsTag P) :
    ParseResponse text =
      ⟨TrimStartAndEnd text,
        [⟨"Continue...".toList, ESQDialogueTone.Neutral,
            "Continue the conversation.".toList⟩,
          ⟨"Goodbye".toList, ESQDialogueTone.Neutral, "Goodbye".toList⟩],
        true⟩ := by
  have hfind := (Find_eq_none_iff text OptionsTag (by decide)).mpr hno
  simp only [ParseResponse, SplitOnOptionsTag_eq, hfind]
  rfl

theorem ParseResponse_without_marker_witness :
    (∀ P, ¬ OccursAt "  Well met. [OPTION]  ".toList OptionsTag P) ∧
      ParseResponse "  Well met. [OPTION]  ".toList =
        ⟨"Well met. [OPTION]".toList,
          [⟨"Continue...".toList, ESQDialogueTone.Neutral,
              "Continue the conversation.".toList⟩,
            ⟨"Goodbye".toList, ESQDialogueTone.Neutral, "Goodbye".toList⟩],
          true⟩ :=
  ⟨(Find_eq_none_iff _ OptionsTag (by decide)).mp (by decide),
    ParseResponse_without_marker "  Well met. [OPTION]  ".toList
      ((Find_eq_none_iff _ OptionsTag (by decide)).mp (by decide))⟩

/-- C5: the worked example of the spec: NPC text `Hello there.`, the three
options `Be kind` (Paragon), `Be mean` (Renegade) and `Leave` (Neutral, with
`Leave` as full response), and the goodbye flag set. -/
theorem ParseResponse_example :
    ParseResponse
        "Hello there.\n[OPTIONS]\n[PARAGON] Be kind | I will help you.\n[RENEGADE] Be mean | Get out of my way.\n[GOODBYE] Leave".toList =
      ⟨"Hello there.".toList,
        [⟨"Be kind".toList, ESQDialogueTone.Paragon, "I will help you.".toList⟩,
          ⟨"Be mean".toList, ESQDialogueTone.Renegade, "Get out of my way.".toList⟩,
          ⟨"Leave".toList, ESQDialogueTone.Neutral, "Leave".toList⟩],
        true⟩ := by
  decide

/-- C6: when `[OPTIONS]` occurs (ignoring case) in the text and `P` is the
position of its first occurrence, the NPC text is the trimmed text before
`P` and the option lines are those of the trimmed text from position `P + 9`
on; later occurrences of the marker play no part. -/
theorem ParseResponse_splits_at_first_marker (text : FString) (P : Nat)
    (hP : OccursAt text OptionsTag P)
    (hfirst : ∀ Q, Q < P → ¬ OccursAt text OptionsTag Q) :
    (ParseResponse text).NPCText = TrimStartAndEnd (text.take P) ∧
      ParseResponse text =
        EnsureOptions
          ((OptionLines (TrimStartAndEnd (text.drop (P + 9)))).foldl ParseOptionLine
            ⟨TrimStartAndEnd (text.take P), [], false⟩) := by
  have h := ParseResponse_of_first text P hP hfirst
  refine ⟨?_, h⟩
  rw [h, EnsureOptions_NPCText, ParseOptionsBlock_eq]

theorem ParseResponse_splits_at_first_marker_witness :
    OccursAt "Hi [options]\nA | a\n[OPTIONS]\nB".toList OptionsTag 3 ∧
      (∀ Q, Q < 3 → ¬ OccursAt "Hi [options]\nA | a\n[OPTIONS]\nB".toList OptionsTag Q) ∧
      OccursAt "Hi [options]\nA | a\n[OPTIONS]\nB".toList OptionsTag 19 ∧
      (ParseResponse "Hi [options]\nA | a\n[OPTIONS]\nB".toList).NPCText = "Hi".toList ∧
      ParseResponse "Hi [options]\nA | a\n[OPTIONS]\nB".toList =
        EnsureOptions
          (["A | a".toList, "[OPTIONS]".toList, "B".toList].foldl ParseOptionLine
            ⟨"Hi".toList, [], false⟩) :=
  ⟨by decide, by decide, by decide,
    (ParseResponse_splits_at_first_marker "Hi [options]\nA | a\n[OPTIONS]\nB".toList 3
      (by decide) (by decide)).1,
    (ParseResponse_splits_at_first_marker "Hi [options]\nA | a\n[OPTIONS]\nB".toList 3
      (by decide) (by decide)).2⟩

/-- C3, evaluated at the response `[OPTIONS]`, `[GOODBYE] Bye`,
`[PARAGON] Stay | I will stay` (one per line): the returned line has the
goodbye flag set, yet its last option is the Paragon option `Stay`, which is
not a conversation-ending option; the goodbye option `Bye` comes first. -/
theorem ParseResponse_goodbye_not_last :
    ParseResponse "[OPTIONS]\n[GOODBYE] Bye\n[PARAGON] Stay | I will stay".toList =
        ⟨[],
          [⟨"Bye".toList, ESQDialogueTone.Neutral, "Bye".toList⟩,
            ⟨"Stay".toList, ESQDialogueTone.Paragon, "I will stay".toList⟩],
          true⟩ ∧
      (ParseResponse
          "[OPTIONS]\n[GOODBYE] Bye\n[PARAGON] Stay | I will stay".toList).Options.getLast? =
        some ⟨"Stay".toList, ESQDialogueTone.Paragon, "I will stay".toList⟩ ∧
      ¬ IsEndingOption
          (SplitOnOptionsTag
            "[OPTIONS]\n[GOODBYE] Bye\n[PARAGON] Stay | I will stay".toList).2
          ⟨"Stay".toList, ESQDialogueTone.Paragon, "I will stay".toList⟩ := by
  decide

/-- C7: when the options block (the trimmed text after the first marker, at
position `P`) yields at least one option, the options of the returned line
are exactly the options that the per-line rule gives for the non-blank
trimmed lines of the block, in the order of those lines: nothing is
reordered, duplicated or merged, and the option at a later position comes
from a later line. -/
theorem ParseResponse_options_source_order (text : FString) (P : Nat)
    (hP : OccursAt text OptionsTag P)
    (hfirst : ∀ Q, Q < P → ¬ OccursAt text OptionsTag Q)
    (hsome :
      (SpecLines (TrimStartAndEnd (text.drop (P + 9)))).filterMap SpecOptionOfLine ≠ []) :
    (ParseResponse text).Options =
        (SpecLines (TrimStartAndEnd (text.drop (P + 9)))).filterMap SpecOptionOfLine ∧
      ∃ g : ℕ → ℕ, StrictMono g ∧
        ∀ i o, (ParseResponse text).Options[i]? = some o →
          ∃ T, (SpecLines (TrimStartAndEnd (text.drop (P + 9))))[g i]? = some T ∧
            SpecOptionOfLine T = some o := by
  have h : (ParseResponse text).Options =
      (SpecLines (TrimStartAndEnd (text.drop (P + 9)))).filterMap SpecOptionOfLine := by
    rw [ParseResponse_of_first text P hP hfirst, ParseOptionsBlock_eq,
      EnsureOptions_of_ne_nil _ hsome]
  refine ⟨h, ?_⟩
  rw [h]
  exact filterMap_source_order SpecOptionOfLine _

theorem ParseResponse_options_source_order_witness :
    OccursAt "Hi\n[OPTIONS]\nB | b\n\n[NEUTRAL] |x\r\nA\n[GOODBYE]".toList OptionsTag 3 ∧
      (ParseResponse "Hi\n[OPTIONS]\nB | b\n\n[NEUTRAL] |x\r\nA\n[GOODBYE]".toList).Options =
        (SpecLines "B | b\n\n[NEUTRAL] |x\r\nA\n[GOODBYE]".toList).filterMap
          SpecOptionOfLine ∧
      (ParseResponse "Hi\n[OPTIONS]\nB | b\n\n[NEUTRAL] |x\r\nA\n[GOODBYE]".toList).Options =
        [⟨"B".toList, ESQDialogueTone.Neutral, "b".toList⟩,
          ⟨"A".toList, ESQDialogueTone.Neutral, "A".toList⟩,
          ⟨"Goodbye".toList, ESQDialogueTone.Neutral, "Goodbye".toList⟩] :=
  ⟨by decide,
    (ParseResponse_options_source_order
      "Hi\n[OPTIONS]\nB | b\n\n[NEUTRAL] |x\r\nA\n[GOODBYE]".toList 3
      (by decide) (by decide) (by decide)).1,
    by decide⟩

/-- C8: for a line that begins (ignoring case) with `[GOODBYE]`, with `r`
the trimmed text after the 9 characters of the tag, the loop body appends
exactly one option, of tone Neutral, whose label and full response are both
`r` (or both `Goodbye` when `r` is empty) without any split on the pipe, and
sets the goodbye flag, which the rest of the loop keeps set. -/
theorem ParseOptionLine_goodbye (Line : FSQDialogueLine) (RawLine : FString)
    (hG : HasTag (TrimStartAndEnd RawLine) GoodbyeTag) :
    ParseOptionLine Line RawLine =
        ⟨Line.NPCText,
          Line.Options ++
            [⟨if TrimStartAndEnd ((TrimStartAndEnd RawLine).drop 9) = [] then "Goodbye".toList
                else TrimStartAndEnd ((TrimStartAndEnd RawLine).drop 9),
              ESQDialogueTone.Neutral,
              if TrimStartAndEnd ((TrimStartAndEnd RawLine).drop 9) = [] then "Goodbye".toList
                else TrimStartAndEnd ((TrimStartAndEnd RawLine).drop 9)⟩],
          true⟩ ∧
      ∀ more : List FString,
        (more.foldl ParseOptionLine (ParseOptionLine Line RawLine)).bIsGoodbye = true := by
  have hT : TrimStartAndEnd RawLine ≠ [] := by
    intro h
    rw [h] at hG
    exact not_HasTag_nil _ (by decide) hG
  have hstep : ParseOptionLine Line RawLine =
      ⟨Line.NPCText,
        Line.Options ++
          [⟨if TrimStartAndEnd ((TrimStartAndEnd RawLine).drop 9) = [] then "Goodbye".toList
              else TrimStartAndEnd ((TrimStartAndEnd RawLine).drop 9),
            ESQDialogueTone.Neutral,
            if TrimStartAndEnd ((TrimStartAndEnd RawLine).drop 9) = [] then "Goodbye".toList
              else TrimStartAndEnd ((TrimStartAndEnd RawLine).drop 9)⟩],
        true⟩ := by
    rw [ParseOptionLine_eq]
    simp [hT, SpecOptionOfLine, SpecRemainder, hG]
  refine ⟨hstep, fun more => ?_⟩
  rw [hstep, foldl_ParseOptionLine]
  simp

theorem ParseOptionLine_goodbye_witness :
    HasTag (TrimStartAndEnd "  [Goodbye] Leave | now ".toList) GoodbyeTag ∧
      ParseOptionLine ⟨"Hi".toList, [], false⟩ "  [Goodbye] Leave | now ".toList =
        ⟨"Hi".toList,
          [⟨"Leave | now".toList, ESQDialogueTone.Neutral, "Leave | now".toList⟩], true⟩ ∧
      ParseOptionLine ⟨"Hi".toList, [], false⟩ "[GOODBYE]".toList =
        ⟨"Hi".toList,
          [⟨"Goodbye".toList, ESQDialogueTone.Neutral, "Goodbye".toList⟩], true⟩ :=
  ⟨by decide,
    (ParseOptionLine_goodbye ⟨"Hi".toList, [], false⟩ "  [Goodbye] Leave | now ".toList
      (by decide)).1,
    (ParseOptionLine_goodbye ⟨"Hi".toList, [], false⟩ "[GOODBYE]".toList (by decide)).1⟩

/-- C9: for a non-blank line that is not a goodbye line, with `s` the
trimmed text left after the tag (the whole line without a tag): when `s` is
`a`, a pipe, `b` with no pipe in `a`, the option has the trimmed `a` as label
and the trimmed `b`, later pipes included, as full response; when `s` has no
pipe, label and full response are both `s`.  The option is appended when
its label is not empty. -/
theorem ParseOptionLine_pipe_split (Line : FSQDialogueLine) (RawLine : FString)
    (hT : TrimStartAndEnd RawLine ≠ [])
    (hG : ¬ HasTag (TrimStartAndEnd RawLine) GoodbyeTag) :
    (∀ a b : FString, SpecRemainder (TrimStartAndEnd RawLine) = a ++ '|' :: b → '|' ∉ a →
        ParseOptionLine Line RawLine =
          if TrimStartAndEnd a = [] then Line
          else
            ⟨Line.NPCText,
              Line.Options ++
                [⟨TrimStartAndEnd a, SpecTone (TrimStartAndEnd RawLine), TrimStartAndEnd b⟩],
              Line.bIsGoodbye⟩) ∧
      ('|' ∉ SpecRemainder (TrimStartAndEnd RawLine) →
        ParseOptionLine Line RawLine =
          if SpecRemainder (TrimStartAndEnd RawLine) = [] then Line
          else
            ⟨Line.NPCText,
              Line.Options ++
                [⟨SpecRemainder (TrimStartAndEnd RawLine), SpecTone (TrimStartAndEnd RawLine),
                  SpecRemainder (TrimStartAndEnd RawLine)⟩],
              Line.bIsGoodbye⟩) := by
  rw [ParseOptionLine_eq]
  simp only [hT, if_false, SpecOptionOfLine, hG]
  constructor
  · intro a b hs ha
    obtain ⟨h1, h2⟩ := takeWhile_dropWhile_split a b '|' ha
    have hmem : '|' ∈ a ++ '|' :: b := by simp
    rw [hs]
    simp only [SpecLabel, SpecFullResponse, hmem, if_true, h1, h2, List.drop_one, List.tail_cons]
    by_cases hl : TrimStartAndEnd a = [] <;> simp [hl]
  · intro hno
    simp only [SpecLabel, SpecFullResponse, hno, if_false]
    by_cases hl : SpecRemainder (TrimStartAndEnd RawLine) = [] <;> simp [hl]

theorem ParseOptionLine_pipe_split_witness :
    ParseOptionLine ⟨[], [], false⟩ "[paragon] Be kind | I will | help ".toList =
        ⟨[], [⟨"Be kind".toList, ESQDialogueTone.Paragon, "I will | help".toList⟩], false⟩ ∧
      ParseOptionLine ⟨[], [], false⟩ "Tell me more".toList =
        ⟨[], [⟨"Tell me more".toList, ESQDialogueTone.Neutral, "Tell me more".toList⟩],
          false⟩ :=
  ⟨(ParseOptionLine_pipe_split ⟨[], [], false⟩ "[paragon] Be kind | I will | help ".toList
      (by decide) (by decide)).1 "Be kind ".toList " I will | help".toList
      (by decide) (by decide),
    (ParseOptionLine_pipe_split ⟨[], [], false⟩ "Tell me more".toList
      (by decide) (by decide)).2 (by decide)⟩

/-- C10: a line that is not a goodbye line and whose label is empty after
trimming adds no option; and when every line of the options block is
discarded in this way, `ParseResponse` returns exactly the two default
options with the goodbye flag set. -/
theorem ParseResponse_discards_empty_labels :
    (∀ (Line : FSQDialogueLine) (RawLine : FString),
        ¬ HasTag (TrimStartAndEnd RawLine) GoodbyeTag →
        SpecLabel (SpecRemainder (TrimStartAndEnd RawLine)) = [] →
        ParseOptionLine Line RawLine = Line) ∧
      ∀ text : FString,
        (∀ RawLine ∈ OptionLines (SplitOnOptionsTag text).2,
          ¬ HasTag (TrimStartAndEnd RawLine) GoodbyeTag ∧
            SpecLabel (SpecRemainder (TrimStartAndEnd RawLine)) = []) →
        (ParseResponse text).Options = [ContinueOption, GoodbyeOption] ∧
          (ParseResponse text).bIsGoodbye = true := by
  constructor
  · intro Line RawLine hG hl
    rw [ParseOptionLine_eq]
    simp [SpecOptionOfLine, hG, hl]
  · intro text hall
    have hnil : (SpecLines (SplitOnOptionsTag text).2).filterMap SpecOptionOfLine = [] := by
      rw [← OptionLines_trim_filter]
      apply List.eq_nil_iff_forall_not_mem.mpr
      intro o ho
      simp only [List.mem_filterMap, List.mem_filter, List.mem_map] at ho
      obtain ⟨T, ⟨⟨RawLine, hmem, rfl⟩, _⟩, hT⟩ := ho
      obtain ⟨hG, hl⟩ := hall RawLine hmem
      simp [SpecOptionOfLine, hG, hl] at hT
    unfold ParseResponse
    rw [ParseOptionsBlock_eq, hnil]
    simp [EnsureOptions]

theorem ParseResponse_discards_empty_labels_witness :
    ParseOptionLine ⟨"Hi".toList, [], false⟩ "[NEUTRAL] |just this".toList =
        ⟨"Hi".toList, [], false⟩ ∧
      ParseOptionLine ⟨"Hi".toList, [], false⟩ "[PARAGON]".toList =
        ⟨"Hi".toList, [], false⟩ ∧
      (ParseResponse "Hi\n[OPTIONS]\n[NEUTRAL] |just this\n[PARAGON]".toList).Options =
        [ContinueOption, GoodbyeOption] ∧
      (ParseResponse "Hi\n[OPTIONS]\n[NEUTRAL] |just this\n[PARAGON]".toList).bIsGoodbye =
        true :=
  ⟨ParseResponse_discards_empty_labels.1 _ "[NEUTRAL] |just this".toList
      (by decide) (by decide),
    ParseResponse_discards_empty_labels.1 _ "[PARAGON]".toList (by decide) (by decide),
    ParseResponse_discards_empty_labels.2
      "Hi\n[OPTIONS]\n[NEUTRAL] |just this\n[PARAGON]".toList (by decide)⟩

theorem EqualsIgnoreCase_eq_decide (a b : FString) :
    EqualsIgnoreCase a b = decide (a.map Char.toLower = b.map Char.toLower) := by
  unfold FString.EqualsIgnoreCase
  by_cases h : a.map Char.toLower = b.map Char.toLower <;> simp [h]

theorem TMap_Find_Add (m : TMap) (Key Value k : FString) :
    TMap.Find (TMap.Add m Key Value) k =
      if EqualsIgnoreCase k Key then some Value else TMap.Find m k := by
  simp only [EqualsIgnoreCase_eq_decide, decide_eq_true_eq]
  induction m with
  | nil =>
    by_cases h : k.map Char.toLower = Key.map Char.toLower
    · simp [TMap.Add, TMap.Find, EqualsIgnoreCase_eq_decide, h]
    · have h2 : ¬ Key.map Char.toLower = k.map Char.toLower := fun e => h e.symm
      simp [TMap.Add, TMap.Find, EqualsIgnoreCase_eq_decide, h, h2]
  | cons e m ih =>
    obtain ⟨a, b⟩ := e
    by_cases ha : a.map Char.toLower = Key.map Char.toLower
    · by_cases h : k.map Char.toLower = Key.map Char.toLower
      · simp [TMap.Add, TMap.Find, EqualsIgnoreCase_eq_decide, ha, h]
      · have h2 : ¬ Key.map Char.toLower = k.map Char.toLower := fun e => h e.symm
        simp [TMap.Add, TMap.Find, EqualsIgnoreCase_eq_decide, ha, h, h2]
    · by_cases hk : a.map Char.toLower = k.map Char.toLower
      · have h : ¬ k.map Char.toLower = Key.map Char.toLower := fun e => ha (hk.trans e)
        simp [TMap.Add, TMap.Find, EqualsIgnoreCase_eq_decide, ha, h, hk]
      · simp [TMap.Add, TMap.Find, EqualsIgnoreCase_eq_decide, ha, hk, ih]

theorem BuiltMap_Find (E : TMap) (n p k : FString) :
    TMap.Find (TMap.Add (TMap.Add E "NPCName".toList n) "PlayerName".toList p) k =
      if EqualsIgnoreCase k "PlayerName".toList then some p
      else if EqualsIgnoreCase k "NPCName".toList then some n else TMap.Find E k := by
  rw [TMap_Find_Add, TMap_Find_Add]

theorem not_PlayerName_of_NPCName (k : FString)
    (h : EqualsIgnoreCase k "NPCName".toList = true) :
    EqualsIgnoreCase k "PlayerName".toList = false := by
  rw [EqualsIgnoreCase_eq_decide, decide_eq_true_eq] at h
  rw [EqualsIgnoreCase_eq_decide, decide_eq_false_iff_not]
  intro h2
  exact absurd (h.symm.trans h2) (by decide)

theorem ParseOptionLine_yields (Line : FSQDialogueLine) (RawLine : FString)
    (o : FSQDialogueOption)
    (ho : (ParseOptionLine Line RawLine).Options = Line.Options ++ [o]) :
    TrimStartAndEnd RawLine ≠ [] ∧
      SpecOptionOfLine (TrimStartAndEnd RawLine) = some o := by
  rw [ParseOptionLine_eq] at ho
  by_cases hT : TrimStartAndEnd RawLine = []
  · simp [hT] at ho
  · refine ⟨hT, ?_⟩
    cases hs : SpecOptionOfLine (TrimStartAndEnd RawLine) with
    | none => simp [hT, hs] at ho
    | some o2 =>
      simp only [hT, hs, if_false, List.append_cancel_left_eq, List.cons.injEq,
        and_true] at ho
      rw [ho]

theorem EndDialogue_state (Synapse : Bool) (c : USQDialogueComponent) :
    (EndDialogue Synapse c).1.DialogueState = ESQDialogueState.Inactive := by
  unfold EndDialogue SetDialogueState
  by_cases h : c.DialogueState = ESQDialogueState.Inactive <;> simp [h]

theorem Apply_of_inactive (c : USQDialogueComponent) (op : Operation)
    (hstate : c.DialogueState = ESQDialogueState.Inactive)
    (hop : ∀ p, op ≠ Operation.Start true p) : Apply c op = (c, []) := by
  cases op with
  | Start Synapse PlayerName =>
    cases Synapse with
    | false => simp [Apply, StartDialogue, hstate]
    | true => exact absurd rfl (hop PlayerName)
  | Select Synapse OptionIndex => simp [Apply, SelectOption, hstate]
  | End Synapse => simp [Apply, EndDialogue, hstate]
  | Response Response => simp [Apply, HandleLLMResponse, hstate]

theorem Run_of_inactive (c : USQDialogueComponent) (ops : List Operation)
    (hstate : c.DialogueState = ESQDialogueState.Inactive)
    (hops : ∀ p, Operation.Start true p ∉ ops) : Run c ops = (c, []) := by
  induction ops with
  | nil => rfl
  | cons op ops ih =>
    have h1 : Apply c op = (c, []) :=
      Apply_of_inactive c op hstate (fun p e => hops p (by simp [e]))
    have h2 := ih (fun p hmem => hops p (List.mem_cons_of_mem _ hmem))
    simp [Run, h1, h2]

theorem SetDialogueState_line (c : USQDialogueComponent) (s : ESQDialogueState) :
    (SetDialogueState c s).1.CurrentLine = c.CurrentLine ∧
      (SetDialogueState c s).1.DialogueState = s := by
  unfold SetDialogueState
  by_cases h : c.DialogueState = s <;> simp [h]

theorem ErrorLine_options_ne_nil (e : FString) : (ErrorLine e).Options ≠ [] := by
  simp [ErrorLine]

theorem StartDialogue_cases (Synapse : Bool) (c : USQDialogueComponent) (p : FString) :
    (StartDialogue Synapse c p).1 = c ∨
      (StartDialogue Synapse c p).1.DialogueState ≠ ESQDialogueState.PlayerChoosing := by
  unfold StartDialogue
  split
  · exact Or.inl rfl
  · split
    · exact Or.inl rfl
    · right
      simp [(SetDialogueState_line _ _).2]

theorem SelectOption_cases (Synapse : Bool) (c : USQDialogueComponent) (i : Int) :
    (SelectOption Synapse c i).1 = c ∨
      (SelectOption Synapse c i).1.DialogueState ≠ ESQDialogueState.PlayerChoosing := by
  unfold SelectOption
  split
  · exact Or.inl rfl
  · split
    · exact Or.inl rfl
    · split
      · exact Or.inl rfl
      · split
        · right
          rw [EndDialogue_state]
          decide
        · split
          · exact Or.inl rfl
          · right
            simp [(SetDialogueState_line _ _).2]

theorem HandleLLMResponse_cases (c : USQDialogueComponent) (r : FSynapseResponse) :
    (HandleLLMResponse c r).1 = c ∨
      (HandleLLMResponse c r).1.CurrentLine.Options ≠ [] := by
  unfold HandleLLMResponse
  split
  · exact Or.inl rfl
  · split
    · right
      simp only [(SetDialogueState_line _ _).1]
      exact ErrorLine_options_ne_nil _
    · right
      simp only [(SetDialogueState_line _ _).1]
      exact EnsureOptions_options_ne_nil _

theorem Apply_options_ne_nil (c : USQDialogueComponent) (op : Operation)
    (hinv : c.DialogueState = ESQDialogueState.PlayerChoosing → c.CurrentLine.Options ≠ [])
    (hstate : (Apply c op).1.DialogueState = ESQDialogueState.PlayerChoosing) :
    (Apply c op).1.CurrentLine.Options ≠ [] := by
  have key : (Apply c op).1 = c ∨
      (Apply c op).1.DialogueState ≠ ESQDialogueState.PlayerChoosing ∨
      (Apply c op).1.CurrentLine.Options ≠ [] := by
    cases op with
    | Start Synapse PlayerName =>
      rcases StartDialogue_cases Synapse c PlayerName with h | h
      · exact Or.inl h
      · exact Or.inr (Or.inl h)
    | Select Synapse OptionIndex =>
      rcases SelectOption_cases Synapse c OptionIndex with h | h
      · exact Or.inl h
      · exact Or.inr (Or.inl h)
    | End Synapse =>
      refine Or.inr (Or.inl ?_)
      simp only [Apply]
      rw [EndDialogue_state]
      decide
    | Response Response =>
      rcases HandleLLMResponse_cases c Response with h | h
      · exact Or.inl h
      · exact Or.inr (Or.inr h)
  rcases key with h | h | h
  · rw [h] at hstate ⊢
    exact hinv hstate
  · exact absurd hstate h
  · exact h

theorem Run_options_ne_nil (c : USQDialogueComponent) (ops : List Operation)
    (hinv : c.DialogueState = ESQDialogueState.PlayerChoosing → c.CurrentLine.Options ≠ []) :
    (Run c ops).1.DialogueState = ESQDialogueState.PlayerChoosing →
      (Run c ops).1.CurrentLine.Options ≠ [] := by
  induction ops generalizing c with
  | nil => exact hinv
  | cons op ops ih =>
    simp only [Run]
    exact ih (Apply c op).1 (Apply_options_ne_nil c op hinv)

theorem Reachable_options_ne_nil (c : USQDialogueComponent) (hreach : Reachable c)
    (hstate : c.DialogueState = ESQDialogueState.PlayerChoosing) :
    c.CurrentLine.Options ≠ [] := by
  obtain ⟨n, o, e, ops, rfl⟩ := hreach
  exact Run_options_ne_nil _ ops (fun h => absurd h (by simp [InitialComponent])) hstate

/-- C11: for every raw line that yields an option `o`, with `T` the trimmed
line: the tone of `o` is Paragon exactly when `T` begins (ignoring case)
with `[PARAGON]`, Renegade exactly when it begins with `[RENEGADE]`, and
Neutral otherwise; and the label is taken from the text after the matched
tag (9 characters, 10 for `[RENEGADE]`), from the whole line when no tag
matches. -/
theorem ParseOptionLine_tone (Line : FSQDialogueLine) (RawLine : FString)
    (o : FSQDialogueOption)
    (ho : (ParseOptionLine Line RawLine).Options = Line.Options ++ [o]) :
    (o.Tone = ESQDialogueTone.Paragon ↔ HasTag (TrimStartAndEnd RawLine) ParagonTag) ∧
      (o.Tone = ESQDialogueTone.Renegade ↔ HasTag (TrimStartAndEnd RawLine) RenegadeTag) ∧
      (o.Tone = ESQDialogueTone.Neutral ↔
        ¬ HasTag (TrimStartAndEnd RawLine) ParagonTag ∧
          ¬ HasTag (TrimStartAndEnd RawLine) RenegadeTag) ∧
      (HasTag (TrimStartAndEnd RawLine) ParagonTag ∨
          HasTag (TrimStartAndEnd RawLine) NeutralTag →
        o.Text = SpecLabel (TrimStartAndEnd ((TrimStartAndEnd RawLine).drop 9))) ∧
      (HasTag (TrimStartAndEnd RawLine) RenegadeTag →
        o.Text = SpecLabel (TrimStartAndEnd ((TrimStartAndEnd RawLine).drop 10))) ∧
      (HasTag (TrimStartAndEnd RawLine) GoodbyeTag →
        o.Text =
          if TrimStartAndEnd ((TrimStartAndEnd RawLine).drop 9) = [] then "Goodbye".toList
          else TrimStartAndEnd ((TrimStartAndEnd RawLine).drop 9)) ∧
      (¬ HasTag (TrimStartAndEnd RawLine) ParagonTag →
        ¬ HasTag (TrimStartAndEnd RawLine) NeutralTag →
        ¬ HasTag (TrimStartAndEnd RawLine) RenegadeTag →
        ¬ HasTag (TrimStartAndEnd RawLine) GoodbyeTag →
        o.Text = SpecLabel (TrimStartAndEnd RawLine)) := by
  obtain ⟨_, hs⟩ := ParseOptionLine_yields Line RawLine o ho
  generalize TrimStartAndEnd RawLine = T at hs ⊢
  unfold SpecOptionOfLine at hs
  by_cases hG : HasTag T GoodbyeTag
  · have hP := not_Paragon_of_Goodbye T hG
    have hN := not_Neutral_of_Goodbye T hG
    have hR := not_Renegade_of_Goodbye T hG
    simp only [hG, if_true, Option.some.injEq] at hs
    subst hs
    simp [hP, hN, hR, hG, SpecRemainder]
  · by_cases hl : SpecLabel (SpecRemainder T) = []
    · simp [hG, hl] at hs
    simp only [hG, hl, if_false, Option.some.injEq] at hs
    subst hs
    by_cases hP : HasTag T ParagonTag
    · have hR := not_Renegade_of_Paragon T hP
      simp [hP, hR, hG, SpecTone, SpecRemainder]
    · by_cases hR : HasTag T RenegadeTag
      · have hN : ¬ HasTag T NeutralTag := fun h => not_Renegade_of_Neutral T h hR
        simp [hP, hR, hN, hG, SpecTone, SpecRemainder]
      · by_cases hN : HasTag T NeutralTag
        · simp [hP, hR, hN, hG, SpecTone, SpecRemainder]
        · simp [hP, hR, hN, hG, SpecTone, SpecRemainder]

theorem ParseOptionLine_tone_witness :
    (ParseOptionLine ⟨[], [], false⟩ " [renegade] Be mean | Get out. ".toList).Options =
        [] ++ [⟨"Be mean".toList, ESQDialogueTone.Renegade, "Get out.".toList⟩] ∧
      HasTag (TrimStartAndEnd " [renegade] Be mean | Get out. ".toList) RenegadeTag ∧
      ((⟨"Be mean".toList, ESQDialogueTone.Renegade, "Get out.".toList⟩ :
          FSQDialogueOption).Tone = ESQDialogueTone.Renegade ↔
        HasTag (TrimStartAndEnd " [renegade] Be mean | Get out. ".toList) RenegadeTag) :=
  ⟨by decide, by decide,
    (ParseOptionLine_tone ⟨[], [], false⟩ " [renegade] Be mean | Get out. ".toList
      ⟨"Be mean".toList, ESQDialogueTone.Renegade, "Get out.".toList⟩ (by decide)).2.1⟩

/-- C12: a response delivered in the state `WaitingForNPC` leaves the state
at `PlayerChoosing`, whether it is a success or a failure; a response
delivered in any other state changes no field of the component and makes no
broadcast. -/
theorem HandleLLMResponse_state_gate (c : USQDialogueComponent) (r : FSynapseResponse) :
    (c.DialogueState = ESQDialogueState.WaitingForNPC →
        (HandleLLMResponse c r).1.DialogueState = ESQDialogueState.PlayerChoosing) ∧
      (c.DialogueState ≠ ESQDialogueState.WaitingForNPC →
        HandleLLMResponse c r = (c, [])) := by
  constructor
  · intro h
    unfold HandleLLMResponse
    cases hs : r.IsSuccess <;> simp [h, (SetDialogueState_line _ _).2]
  · intro h
    simp [HandleLLMResponse, h]

theorem HandleLLMResponse_state_gate_witness :
    (HandleLLMResponse
        ⟨"NPC".toList, "Greet".toList, [], ESQDialogueState.WaitingForNPC, DefaultLine,
          "Ann".toList⟩
        ⟨false, [], "timeout".toList⟩).1.DialogueState = ESQDialogueState.PlayerChoosing ∧
      HandleLLMResponse
          ⟨"NPC".toList, "Greet".toList, [], ESQDialogueState.Inactive, DefaultLine, []⟩
          ⟨true, "Hi".toList, []⟩ =
        (⟨"NPC".toList, "Greet".toList, [], ESQDialogueState.Inactive, DefaultLine, []⟩, []) :=
  ⟨(HandleLLMResponse_state_gate _ ⟨false, [], "timeout".toList⟩).1 rfl,
    (HandleLLMResponse_state_gate _ ⟨true, "Hi".toList, []⟩).2 (by decide)⟩

/-- C13, as stated, fails: a request is outstanding, `EndDialogue` is called,
a new `StartDialogue` is accepted, and then the response is delivered: the
state becomes `PlayerChoosing`, the current line becomes the parsed response
and the line-ready broadcast is made. -/
theorem late_response_after_new_start :
    (StartDialogue true (InitialComponent "NPC".toList "Greet".toList []) "Ann".toList).1.DialogueState =
        ESQDialogueState.WaitingForNPC ∧
      (HandleLLMResponse
          (Run
            (EndDialogue true
              (StartDialogue true (InitialComponent "NPC".toList "Greet".toList [])
                "Ann".toList).1).1
            [Operation.Start true "Bob".toList]).1
          ⟨true, "Old answer".toList, []⟩).1.DialogueState =
        ESQDialogueState.PlayerChoosing ∧
      (HandleLLMResponse
          (Run
            (EndDialogue true
              (StartDialogue true (InitialComponent "NPC".toList "Greet".toList [])
                "Ann".toList).1).1
            [Operation.Start true "Bob".toList]).1
          ⟨true, "Old answer".toList, []⟩).1.CurrentLine =
        ParseResponse "Old answer".toList ∧
      (HandleLLMResponse
          (Run
            (EndDialogue true
              (StartDialogue true (InitialComponent "NPC".toList "Greet".toList [])
                "Ann".toList).1).1
            [Operation.Start true "Bob".toList]).1
          ⟨true, "Old answer".toList, []⟩).2 =
        [Effect.OnDialogueStateChanged ESQDialogueState.PlayerChoosing,
          Effect.OnDialogueLineReady (ParseResponse "Old answer".toList)] := by
  decide

/-- C13, amended: after `EndDialogue`, whatever calls of `SelectOption`,
`EndDialogue`, `HandleLLMResponse` and of `StartDialogue` without a backend
are made, none of them has any effect, and a response delivered afterwards
changes no field of the component and makes no broadcast. -/
theorem late_response_noop_without_new_start (Synapse : Bool) (c : USQDialogueComponent)
    (ops : List Operation) (r : FSynapseResponse)
    (hops : ∀ p, Operation.Start true p ∉ ops) :
    Run (EndDialogue Synapse c).1 ops = ((EndDialogue Synapse c).1, []) ∧
      HandleLLMResponse (Run (EndDialogue Synapse c).1 ops).1 r =
        ((Run (EndDialogue Synapse c).1 ops).1, []) := by
  have h := Run_of_inactive (EndDialogue Synapse c).1 ops (EndDialogue_state Synapse c) hops
  refine ⟨h, ?_⟩
  rw [h]
  simp [HandleLLMResponse, EndDialogue_state]

theorem late_response_noop_without_new_start_witness :
    (∀ p, Operation.Start true p ∉
        [Operation.Select true 0, Operation.Response ⟨true, "x".toList, []⟩,
          Operation.Start false "Bob".toList, Operation.End true]) ∧
      HandleLLMResponse
          (Run
            (EndDialogue true
              ⟨"NPC".toList, "Greet".toList, [], ESQDialogueState.WaitingForNPC, DefaultLine,
                "Ann".toList⟩).1
            [Operation.Select true 0, Operation.Response ⟨true, "x".toList, []⟩,
              Operation.Start false "Bob".toList, Operation.End true]).1
          ⟨true, "Old answer".toList, []⟩ =
        (⟨"NPC".toList, "Greet".toList, [], ESQDialogueState.Inactive, DefaultLine, []⟩, []) :=
  ⟨by simp,
    (late_response_noop_without_new_start true
      ⟨"NPC".toList, "Greet".toList, [], ESQDialogueState.WaitingForNPC, DefaultLine,
        "Ann".toList⟩
      [Operation.Select true 0, Operation.Response ⟨true, "x".toList, []⟩,
        Operation.Start false "Bob".toList, Operation.End true]
      ⟨true, "Old answer".toList, []⟩ (by simp)).2⟩

theorem getElem?_toNat_of_valid (l : List FSQDialogueOption) (i : Int)
    (h0 : 0 ≤ i) (h1 : i < (l.length : Int)) : ∃ o, l[i.toNat]? = some o := by
  have hlt : i.toNat < l.length := by omega
  exact ⟨l[i.toNat], List.getElem?_eq_getElem hlt⟩

theorem IsValidIndex_iff (l : List FSQDialogueOption) (i : Int) :
    IsValidIndex l i = true ↔ 0 ≤ i ∧ i < (l.length : Int) := by
  simp [IsValidIndex]

theorem EndDialogue_of_active (Synapse : Bool) (c : USQDialogueComponent)
    (hstate : c.DialogueState ≠ ESQDialogueState.Inactive) :
    EndDialogue Synapse c =
      (⟨c.NPCName, c.OpeningPrompt, c.ExtraTemplateVariables, ESQDialogueState.Inactive,
          DefaultLine, []⟩,
        (if Synapse then [Effect.CancelAllRequests] else []) ++
          [Effect.OnDialogueStateChanged ESQDialogueState.Inactive, Effect.OnDialogueEnded]) := by
  simp [EndDialogue, SetDialogueState, hstate]

/-- C14: in the state `PlayerChoosing`, on a goodbye line that has a last
option (every line that the component holds in that state has one),
selecting the last option does exactly what `EndDialogue` does: no chat
request, the state `Inactive`, the default line, no player name, and the
broadcasts state-changed and dialogue-ended once each. -/
theorem SelectOption_last_of_goodbye_line (Synapse : Bool) (c : USQDialogueComponent)
    (hstate : c.DialogueState = ESQDialogueState.PlayerChoosing)
    (hgb : c.CurrentLine.bIsGoodbye = true)
    (hlast : Reachable c ∨ c.CurrentLine.Options ≠ []) :
    SelectOption Synapse c ((c.CurrentLine.Options.length : Int) - 1) =
        EndDialogue Synapse c ∧
      EndDialogue Synapse c =
        (⟨c.NPCName, c.OpeningPrompt, c.ExtraTemplateVariables, ESQDialogueState.Inactive,
            DefaultLine, []⟩,
          (if Synapse then [Effect.CancelAllRequests] else []) ++
            [Effect.OnDialogueStateChanged ESQDialogueState.Inactive,
              Effect.OnDialogueEnded]) ∧
      (EndDialogue Synapse c).2.filter Effect.IsChatRequest = [] ∧
      (EndDialogue Synapse c).2.count Effect.OnDialogueEnded = 1 := by
  have hne : c.CurrentLine.Options ≠ [] := by
    rcases hlast with h | h
    · exact Reachable_options_ne_nil c h hstate
    · exact h
  have hpos : 0 < c.CurrentLine.Options.length := List.length_pos.mpr hne
  have hend := EndDialogue_of_active Synapse c (by rw [hstate]; decide)
  refine ⟨?_, hend, ?_, ?_⟩
  · have hvalid : IsValidIndex c.CurrentLine.Options
        ((c.CurrentLine.Options.length : Int) - 1) = true :=
      (IsValidIndex_iff _ _).mpr ⟨by omega, by omega⟩
    obtain ⟨o, ho⟩ := getElem?_toNat_of_valid c.CurrentLine.Options
      ((c.CurrentLine.Options.length : Int) - 1) (by omega) (by omega)
    unfold SelectOption
    rw [if_neg (by simp [hstate]), if_neg (by simp [hvalid]), ho]
    simp [hgb]
  · rw [hend]
    cases Synapse <;> simp [Effect.IsChatRequest]
  · rw [hend]
    cases Synapse <;> simp

theorem SelectOption_last_of_goodbye_line_witness :
    SelectOption true
        ⟨"NPC".toList, "Greet".toList, [], ESQDialogueState.PlayerChoosing,
          ParseResponse "Hello.\n[OPTIONS]\nAsk | Tell me more.\n[GOODBYE] Leave".toList,
          "Ann".toList⟩ 1 =
      (⟨"NPC".toList, "Greet".toList, [], ESQDialogueState.Inactive, DefaultLine, []⟩,
        [Effect.CancelAllRequests, Effect.OnDialogueStateChanged ESQDialogueState.Inactive,
          Effect.OnDialogueEnded]) :=
  ((SelectOption_last_of_goodbye_line true
      ⟨"NPC".toList, "Greet".toList, [], ESQDialogueState.PlayerChoosing,
        ParseResponse "Hello.\n[OPTIONS]\nAsk | Tell me more.\n[GOODBYE] Leave".toList,
        "Ann".toList⟩ rfl (by decide) (Or.inr (by decide))).1).trans
    (SelectOption_last_of_goodbye_line true
      ⟨"NPC".toList, "Greet".toList, [], ESQDialogueState.PlayerChoosing,
        ParseResponse "Hello.\n[OPTIONS]\nAsk | Tell me more.\n[GOODBYE] Leave".toList,
        "Ann".toList⟩ rfl (by decide) (Or.inr (by decide))).2.1

/-- C15, evaluated on the conversation that `StartDialogue` and the response
`[OPTIONS]`, `[GOODBYE] Bye`, `[PARAGON] Stay | I will stay` (one per line)
produce: the component is in the state `PlayerChoosing` with a goodbye line
whose option 0 comes from the `[GOODBYE]` line, and selecting option 0 does
not end the dialogue but sends the text `Bye` to the backend. -/
theorem SelectOption_goodbye_text_sent :
    (Run (InitialComponent "NPC".toList "Greet".toList [])
        [Operation.Start true "Ann".toList,
          Operation.Response
            ⟨true, "[OPTIONS]\n[GOODBYE] Bye\n[PARAGON] Stay | I will stay".toList, []⟩]).1 =
        ⟨"NPC".toList, "Greet".toList, [], ESQDialogueState.PlayerChoosing,
          ⟨[],
            [⟨"Bye".toList, ESQDialogueTone.Neutral, "Bye".toList⟩,
              ⟨"Stay".toList, ESQDialogueTone.Paragon, "I will stay".toList⟩],
            true⟩,
          "Ann".toList⟩ ∧
      SpecOptionOfLine "[GOODBYE] Bye".toList =
        some ⟨"Bye".toList, ESQDialogueTone.Neutral, "Bye".toList⟩ ∧
      SelectOption true
          (Run (InitialComponent "NPC".toList "Greet".toList [])
            [Operation.Start true "Ann".toList,
              Operation.Response
                ⟨true, "[OPTIONS]\n[GOODBYE] Bye\n[PARAGON] Stay | I will stay".toList,
                  []⟩]).1
          0 =
        (⟨"NPC".toList, "Greet".toList, [], ESQDialogueState.WaitingForNPC,
            ⟨[],
              [⟨"Bye".toList, ESQDialogueTone.Neutral, "Bye".toList⟩,
                ⟨"Stay".toList, ESQDialogueTone.Paragon, "I will stay".toList⟩],
              true⟩,
            "Ann".toList⟩,
          [Effect.OnDialogueStateChanged ESQDialogueState.WaitingForNPC,
            Effect.Chat "Bye".toList
              [("NPCName".toList, "NPC".toList), ("PlayerName".toList, "Ann".toList)]]) := by
  decide

/-- C16: `SelectOption` changes no field of the component and has no effect
at all (no request, no cancellation, no broadcast) when the state is not
`PlayerChoosing`, or the index is not a position of the current line's
options, or the choice is not the last option of a goodbye line and there is
no backend. -/
theorem SelectOption_noop (Synapse : Bool) (c : USQDialogueComponent) (i : Int)
    (h : c.DialogueState ≠ ESQDialogueState.PlayerChoosing ∨
      ¬ (0 ≤ i ∧ i < (c.CurrentLine.Options.length : Int)) ∨
      (¬ (c.CurrentLine.bIsGoodbye = true ∧ i = (c.CurrentLine.Options.length : Int) - 1) ∧
        Synapse = false)) :
    SelectOption Synapse c i = (c, []) := by
  unfold SelectOption
  split
  · rfl
  · rename_i hstate
    split
    · rfl
    · rename_i hvalid
      split
      · rfl
      · rcases h with h | h | ⟨h, hs⟩
        · exact absurd h hstate
        · have hv : IsValidIndex c.CurrentLine.Options i = true := by simpa using hvalid
          exact absurd ((IsValidIndex_iff _ _).mp hv) h
        · have hcond : (c.CurrentLine.bIsGoodbye &&
              decide (i = (c.CurrentLine.Options.length : Int) - 1)) = false := by
            cases hb : (c.CurrentLine.bIsGoodbye &&
              decide (i = (c.CurrentLine.Options.length : Int) - 1)) with
            | false => rfl
            | true =>
              simp only [Bool.and_eq_true, decide_eq_true_eq] at hb
              exact absurd hb h
          simp [hcond, hs]

theorem SelectOption_noop_witness :
    SelectOption true
          ⟨"NPC".toList, "Greet".toList, [], ESQDialogueState.WaitingForNPC, DefaultLine,
            "Ann".toList⟩ 0 =
        (⟨"NPC".toList, "Greet".toList, [], ESQDialogueState.WaitingForNPC, DefaultLine,
            "Ann".toList⟩, []) ∧
      SelectOption true
          ⟨"NPC".toList, "Greet".toList, [], ESQDialogueState.PlayerChoosing,
            ParseResponse "Hello.".toList, "Ann".toList⟩ 2 =
        (⟨"NPC".toList, "Greet".toList, [], ESQDialogueState.PlayerChoosing,
            ParseResponse "Hello.".toList, "Ann".toList⟩, []) ∧
      SelectOption true
          ⟨"NPC".toList, "Greet".toList, [], ESQDialogueState.PlayerChoosing,
            ParseResponse "Hello.".toList, "Ann".toList⟩ (-1) =
        (⟨"NPC".toList, "Greet".toList, [], ESQDialogueState.PlayerChoosing,
            ParseResponse "Hello.".toList, "Ann".toList⟩, []) ∧
      SelectOption false
          ⟨"NPC".toList, "Greet".toList, [], ESQDialogueState.PlayerChoosing,
            ParseResponse "Hello.".toList, "Ann".toList⟩ 0 =
        (⟨"NPC".toList, "Greet".toList, [], ESQDialogueState.PlayerChoosing,
            ParseResponse "Hello.".toList, "Ann".toList⟩, []) :=
  ⟨SelectOption_noop true _ 0 (Or.inl (by decide)),
    SelectOption_noop true _ 2 (Or.inr (Or.inl (by decide))),
    SelectOption_noop true _ (-1) (Or.inr (Or.inl (by decide))),
    SelectOption_noop false _ 0 (Or.inr (Or.inr ⟨by decide, rfl⟩))⟩

theorem StartDialogue_of_inactive (c : USQDialogueComponent) (p : FString)
    (hstate : c.DialogueState = ESQDialogueState.Inactive) :
    StartDialogue true c p =
      ({ c with DialogueState := ESQDialogueState.WaitingForNPC, CurrentPlayerName := p },
        [Effect.ClearHistory, Effect.SetUseConversationHistory true,
          Effect.OnDialogueStateChanged ESQDialogueState.WaitingForNPC,
          Effect.ChatWithSystem GetDialogueSystemPrompt c.OpeningPrompt
            (TMap.Add (TMap.Add c.ExtraTemplateVariables "NPCName".toList c.NPCName)
              "PlayerName".toList p)]) := by
  simp [StartDialogue, SetDialogueState, hstate, BuildTemplateVariables]

/-- C17: in the state `PlayerChoosing`, with a backend, for a valid index
that is not the last index of a goodbye line, `SelectOption` sets the state
to `WaitingForNPC`, keeps the current line, and makes exactly one chat
request: the full response of the chosen option, or its label when the full
response is empty, with the mapping of `BuildTemplateVariables` (extra
variables, then `NPCName`, then `PlayerName`), the one `StartDialogue`
sends. -/
theorem SelectOption_sends (c : USQDialogueComponent) (i : Int)
    (hstate : c.DialogueState = ESQDialogueState.PlayerChoosing)
    (h0 : 0 ≤ i) (h1 : i < (c.CurrentLine.Options.length : Int))
    (hnot : ¬ (c.CurrentLine.bIsGoodbye = true ∧
      i = (c.CurrentLine.Options.length : Int) - 1)) :
    ∃ o, c.CurrentLine.Options[i.toNat]? = some o ∧
      SelectOption true c i =
        ({ c with DialogueState := ESQDialogueState.WaitingForNPC },
          [Effect.OnDialogueStateChanged ESQDialogueState.WaitingForNPC,
            Effect.Chat (if o.FullResponse = [] then o.Text else o.FullResponse)
              (TMap.Add (TMap.Add c.ExtraTemplateVariables "NPCName".toList c.NPCName)
                "PlayerName".toList c.CurrentPlayerName)]) ∧
      (SelectOption true c i).1.CurrentLine = c.CurrentLine ∧
      ((SelectOption true c i).2.filter Effect.IsChatRequest).length = 1 := by
  obtain ⟨o, ho⟩ := getElem?_toNat_of_valid c.CurrentLine.Options i h0 h1
  have hvalid : IsValidIndex c.CurrentLine.Options i = true :=
    (IsValidIndex_iff _ _).mpr ⟨h0, h1⟩
  have hcond : (c.CurrentLine.bIsGoodbye &&
      decide (i = (c.CurrentLine.Options.length : Int) - 1)) = false := by
    cases hb : (c.CurrentLine.bIsGoodbye &&
      decide (i = (c.CurrentLine.Options.length : Int) - 1)) with
    | false => rfl
    | true =>
      simp only [Bool.and_eq_true, decide_eq_true_eq] at hb
      exact absurd hb hnot
  have hsel : SelectOption true c i =
      ({ c with DialogueState := ESQDialogueState.WaitingForNPC },
        [Effect.OnDialogueStateChanged ESQDialogueState.WaitingForNPC,
          Effect.Chat (if o.FullResponse = [] then o.Text else o.FullResponse)
            (TMap.Add (TMap.Add c.ExtraTemplateVariables "NPCName".toList c.NPCName)
              "PlayerName".toList c.CurrentPlayerName)]) := by
    unfold SelectOption
    rw [if_neg (by simp [hstate]), if_neg (by simp [hvalid]), ho]
    simp [hcond, SetDialogueState, hstate, BuildTemplateVariables, isEmpty_eq_decide]
  refine ⟨o, ho, hsel, ?_, ?_⟩
  · rw [hsel]
  · rw [hsel]
    simp [Effect.IsChatRequest]

theorem SelectOption_sends_witness :
    SelectOption true
        ⟨"NPC".toList, "Greet".toList, [("Mood".toList, "calm".toList)],
          ESQDialogueState.PlayerChoosing,
          ⟨"Hello.".toList,
            [⟨"Ask".toList, ESQDialogueTone.Neutral, "Tell me more.".toList⟩,
              ⟨"Leave".toList, ESQDialogueTone.Neutral, []⟩],
            false⟩,
          "Ann".toList⟩ 1 =
      (⟨"NPC".toList, "Greet".toList, [("Mood".toList, "calm".toList)],
          ESQDialogueState.WaitingForNPC,
          ⟨"Hello.".toList,
            [⟨"Ask".toList, ESQDialogueTone.Neutral, "Tell me more.".toList⟩,
              ⟨"Leave".toList, ESQDialogueTone.Neutral, []⟩],
            false⟩,
          "Ann".toList⟩,
        [Effect.OnDialogueStateChanged ESQDialogueState.WaitingForNPC,
          Effect.Chat "Leave".toList
            [("Mood".toList, "calm".toList), ("NPCName".toList, "NPC".toList),
              ("PlayerName".toList, "Ann".toList)]]) := by
  obtain ⟨o, ho, hsel, _⟩ := SelectOption_sends
    ⟨"NPC".toList, "Greet".toList, [("Mood".toList, "calm".toList)],
      ESQDialogueState.PlayerChoosing,
      ⟨"Hello.".toList,
        [⟨"Ask".toList, ESQDialogueTone.Neutral, "Tell me more.".toList⟩,
          ⟨"Leave".toList, ESQDialogueTone.Neutral, []⟩],
        false⟩,
      "Ann".toList⟩ 1 rfl (by decide) (by decide) (by decide)
  have ho2 : o = ⟨"Leave".toList, ESQDialogueTone.Neutral, []⟩ := by
    have : some o = some (⟨"Leave".toList, ESQDialogueTone.Neutral, []⟩ : FSQDialogueOption) :=
      ho.symm.trans (by decide)
    exact Option.some.inj this
  rw [hsel, ho2]
  decide

/-- C18: from the state `Inactive`, with a backend, `StartDialogue` stores
the player name, clears the history of the backend, turns the conversation
history on, sets the state to `WaitingForNPC`, and makes exactly one
`ChatWithSystem` request with the fixed system prompt, the configured
opening prompt and a mapping that sends `NPCName` to the NPC name,
`PlayerName` to the player name, and every key that matches neither of the
two (the map matches keys ignoring case) to what the extra variables
give. -/
theorem StartDialogue_from_inactive (c : USQDialogueComponent) (p : FString)
    (hstate : c.DialogueState = ESQDialogueState.Inactive) :
    StartDialogue true c p =
        ({ c with DialogueState := ESQDialogueState.WaitingForNPC, CurrentPlayerName := p },
          [Effect.ClearHistory, Effect.SetUseConversationHistory true,
            Effect.OnDialogueStateChanged ESQDialogueState.WaitingForNPC,
            Effect.ChatWithSystem GetDialogueSystemPrompt c.OpeningPrompt
              (TMap.Add (TMap.Add c.ExtraTemplateVariables "NPCName".toList c.NPCName)
                "PlayerName".toList p)]) ∧
      ((StartDialogue true c p).2.filter Effect.IsChatRequest).length = 1 ∧
      TMap.Find
          (TMap.Add (TMap.Add c.ExtraTemplateVariables "NPCName".toList c.NPCName)
            "PlayerName".toList p)
          "NPCName".toList = some c.NPCName ∧
      TMap.Find
          (TMap.Add (TMap.Add c.ExtraTemplateVariables "NPCName".toList c.NPCName)
            "PlayerName".toList p)
          "PlayerName".toList = some p ∧
      ∀ k, EqualsIgnoreCase k "NPCName".toList = false →
        EqualsIgnoreCase k "PlayerName".toList = false →
        TMap.Find
            (TMap.Add (TMap.Add c.ExtraTemplateVariables "NPCName".toList c.NPCName)
              "PlayerName".toList p)
            k = TMap.Find c.ExtraTemplateVariables k := by
  have h := StartDialogue_of_inactive c p hstate
  refine ⟨h, ?_, ?_, ?_, ?_⟩
  · rw [h]
    simp [Effect.IsChatRequest]
  · rw [BuiltMap_Find, if_neg (by decide), if_pos (by decide)]
  · rw [BuiltMap_Find, if_pos (by decide)]
  · intro k hk1 hk2
    rw [BuiltMap_Find, hk1, hk2]
    rfl

theorem StartDialogue_from_inactive_witness :
    StartDialogue true
        (InitialComponent "Mira".toList "Greet the player.".toList
          [("Mood".toList, "calm".toList), ("npcname".toList, "x".toList)])
        "Ann".toList =
      (⟨"Mira".toList, "Greet the player.".toList,
          [("Mood".toList, "calm".toList), ("npcname".toList, "x".toList)],
          ESQDialogueState.WaitingForNPC, DefaultLine, "Ann".toList⟩,
        [Effect.ClearHistory, Effect.SetUseConversationHistory true,
          Effect.OnDialogueStateChanged ESQDialogueState.WaitingForNPC,
          Effect.ChatWithSystem GetDialogueSystemPrompt "Greet the player.".toList
            [("Mood".toList, "calm".toList), ("NPCName".toList, "Mira".toList),
              ("PlayerName".toList, "Ann".toList)]]) :=
  (StartDialogue_from_inactive
    (InitialComponent "Mira".toList "Greet the player.".toList
      [("Mood".toList, "calm".toList), ("npcname".toList, "x".toList)])
    "Ann".toList rfl).1

/-- C19: `StartDialogue` changes no field of the component and has no
effect (the history of the backend is not touched, no request, no
broadcast) when the state is not `Inactive` or there is no backend; and a
second call right after an accepted one changes nothing, so that the state
is `WaitingForNPC`, the player name is that of the first call, and the two
calls make one request in all. -/
theorem StartDialogue_noop :
    (∀ (Synapse : Bool) (c : USQDialogueComponent) (p : FString),
        c.DialogueState ≠ ESQDialogueState.Inactive ∨ Synapse = false →
        StartDialogue Synapse c p = (c, [])) ∧
      ∀ (c : USQDialogueComponent) (p1 p2 : FString) (Synapse2 : Bool),
        c.DialogueState = ESQDialogueState.Inactive →
        StartDialogue Synapse2 (StartDialogue true c p1).1 p2 =
            ((StartDialogue true c p1).1, []) ∧
          (StartDialogue Synapse2 (StartDialogue true c p1).1 p2).1.DialogueState =
            ESQDialogueState.WaitingForNPC ∧
          (StartDialogue Synapse2 (StartDialogue true c p1).1 p2).1.CurrentPlayerName = p1 ∧
          (((StartDialogue true c p1).2 ++
              (StartDialogue Synapse2 (StartDialogue true c p1).1 p2).2).filter
            Effect.IsChatRequest).length = 1 := by
  constructor
  · intro Synapse c p h
    rcases h with h | h
    · simp [StartDialogue, h]
    · subst h
      by_cases hs : c.DialogueState = ESQDialogueState.Inactive <;> simp [StartDialogue, hs]
  · intro c p1 p2 Synapse2 hstate
    have h1 := StartDialogue_of_inactive c p1 hstate
    have h2 : StartDialogue Synapse2 (StartDialogue true c p1).1 p2 =
        ((StartDialogue true c p1).1, []) := by
      rw [h1]
      simp [StartDialogue]
    refine ⟨h2, ?_, ?_, ?_⟩
    · rw [h2, h1]
    · rw [h2, h1]
    · rw [h2, h1]
      simp [Effect.IsChatRequest]

theorem StartDialogue_noop_witness :
    StartDialogue false (InitialComponent "NPC".toList "Greet".toList []) "Ann".toList =
        (InitialComponent "NPC".toList "Greet".toList [], []) ∧
      StartDialogue true
          (StartDialogue true (InitialComponent "NPC".toList "Greet".toList [])
            "Ann".toList).1
          "Bob".toList =
        (⟨"NPC".toList, "Greet".toList, [], ESQDialogueState.WaitingForNPC, DefaultLine,
            "Ann".toList⟩, []) :=
  ⟨StartDialogue_noop.1 false _ "Ann".toList (Or.inr rfl),
    (StartDialogue_noop.2 (InitialComponent "NPC".toList "Greet".toList [])
      "Ann".toList "Bob".toList true rfl).1⟩

/-- C20: `EndDialogue` on a component that is already `Inactive` changes no
field, asks for no cancellation and makes no broadcast; hence a second
`EndDialogue` right after a first one returns the component of the first
and has no effect. -/
theorem EndDialogue_idempotent :
    (∀ (Synapse : Bool) (c : USQDialogueComponent),
        c.DialogueState = ESQDialogueState.Inactive → EndDialogue Synapse c = (c, [])) ∧
      ∀ (Synapse1 Synapse2 : Bool) (c : USQDialogueComponent),
        EndDialogue Synapse2 (EndDialogue Synapse1 c).1 = ((EndDialogue Synapse1 c).1, []) := by
  have h1 : ∀ (Synapse : Bool) (c : USQDialogueComponent),
      c.DialogueState = ESQDialogueState.Inactive → EndDialogue Synapse c = (c, []) := by
    intro Synapse c h
    simp [EndDialogue, h]
  exact ⟨h1, fun Synapse1 Synapse2 c => h1 Synapse2 _ (EndDialogue_state Synapse1 c)⟩

theorem EndDialogue_idempotent_witness :
    EndDialogue true (InitialComponent "NPC".toList "Greet".toList []) =
        (InitialComponent "NPC".toList "Greet".toList [], []) ∧
      EndDialogue true
          (EndDialogue true
            ⟨"NPC".toList, "Greet".toList, [], ESQDialogueState.PlayerChoosing,
              ParseResponse "Hello.".toList, "Ann".toList⟩).1 =
        (⟨"NPC".toList, "Greet".toList, [], ESQDialogueState.Inactive, DefaultLine, []⟩, []) :=
  ⟨EndDialogue_idempotent.1 true _ rfl,
    EndDialogue_idempotent.2 true true
      ⟨"NPC".toList, "Greet".toList, [], ESQDialogueState.PlayerChoosing,
        ParseResponse "Hello.".toList, "Ann".toList⟩⟩

theorem find?_range_first (p : Nat → Bool) (n k : Nat) (hk : p k = true) (hkn : k < n)
    (hfirst : ∀ j, j < k → p j = false) : (List.range n).find? p = some k := by
  induction n with
  | zero => exact absurd hkn (Nat.not_lt_zero k)
  | succ n ih =>
    rw [List.range_succ, List.find?_append]
    by_cases hlt : k < n
    · rw [ih hlt]
      rfl
    · have hkeq : k = n := by omega
      subst hkeq
      have hnone : (List.range k).find? p = none := by
        rw [List.find?_eq_none]
        intro j hj
        have := hfirst j (List.mem_range.mp hj)
        simp [this]
      rw [hnone]
      simp [List.find?, hk]

theorem OccursAt_lt_length (text sub : FString) (hsub : sub ≠ []) (P : Nat)
    (h : OccursAt text sub P) : P < text.length := by
  by_contra hge
  have hdrop : text.drop P = [] := List.drop_eq_nil_of_le (by omega)
  unfold OccursAt at h
  rw [hdrop] at h
  exact not_HasTag_nil sub hsub h

theorem SpecFirstMarker_eq_Find (text : FString) :
    SpecFirstMarker text = Find text OptionsTag := by
  unfold SpecFirstMarker
  cases h : Find text OptionsTag with
  | none =>
    have hno := (Find_eq_none_iff text OptionsTag (by decide)).mp h
    rw [List.find?_eq_none]
    intro P _
    simpa using hno P
  | some P =>
    obtain ⟨hP, hfirst⟩ := Find_some_first text OptionsTag P h
    have hlt := OccursAt_lt_length text OptionsTag (by decide) P hP
    exact find?_range_first _ _ P (by simpa using hP) (by omega)
      (fun j hj => by simpa using hfirst j hj)

theorem StartDialogue_result (Synapse : Bool) (c : USQDialogueComponent) (p : FString) :
    StartDialogue Synapse c p = (c, []) ∨
      (c.DialogueState = ESQDialogueState.Inactive ∧ Synapse = true ∧
        StartDialogue Synapse c p =
          ({ c with DialogueState := ESQDialogueState.WaitingForNPC, CurrentPlayerName := p },
            [Effect.ClearHistory, Effect.SetUseConversationHistory true,
              Effect.OnDialogueStateChanged ESQDialogueState.WaitingForNPC,
              Effect.ChatWithSystem GetDialogueSystemPrompt c.OpeningPrompt
                (TMap.Add (TMap.Add c.ExtraTemplateVariables "NPCName".toList c.NPCName)
                  "PlayerName".toList p)])) := by
  by_cases hstate : c.DialogueState = ESQDialogueState.Inactive
  · cases Synapse with
    | false => left; simp [StartDialogue, hstate]
    | true => exact Or.inr ⟨hstate, rfl, StartDialogue_of_inactive c p hstate⟩
  · left
    simp [StartDialogue, hstate]

theorem EndDialogue_result (Synapse : Bool) (c : USQDialogueComponent) :
    (c.DialogueState = ESQDialogueState.Inactive ∧ EndDialogue Synapse c = (c, [])) ∨
      (c.DialogueState ≠ ESQDialogueState.Inactive ∧
        EndDialogue Synapse c =
          (⟨c.NPCName, c.OpeningPrompt, c.ExtraTemplateVariables, ESQDialogueState.Inactive,
              DefaultLine, []⟩,
            (if Synapse then [Effect.CancelAllRequests] else []) ++
              [Effect.OnDialogueStateChanged ESQDialogueState.Inactive,
                Effect.OnDialogueEnded])) := by
  by_cases hstate : c.DialogueState = ESQDialogueState.Inactive
  · left
    exact ⟨hstate, by simp [EndDialogue, hstate]⟩
  · exact Or.inr ⟨hstate, EndDialogue_of_active Synapse c hstate⟩

theorem SelectOption_result (Synapse : Bool) (c : USQDialogueComponent) (i : Int) :
    SelectOption Synapse c i = (c, []) ∨
      (c.DialogueState = ESQDialogueState.PlayerChoosing ∧
        SelectOption Synapse c i = EndDialogue Synapse c) ∨
      ∃ o, c.CurrentLine.Options[i.toNat]? = some o ∧
        c.DialogueState = ESQDialogueState.PlayerChoosing ∧ Synapse = true ∧
        SelectOption Synapse c i =
          ({ c with DialogueState := ESQDialogueState.WaitingForNPC },
            [Effect.OnDialogueStateChanged ESQDialogueState.WaitingForNPC,
              Effect.Chat (if o.FullResponse = [] then o.Text else o.FullResponse)
                (TMap.Add (TMap.Add c.ExtraTemplateVariables "NPCName".toList c.NPCName)
                  "PlayerName".toList c.CurrentPlayerName)]) := by
  unfold SelectOption
  split
  · exact Or.inl rfl
  · rename_i hstate
    have hst : c.DialogueState = ESQDialogueState.PlayerChoosing := by
      simpa using hstate
    split
    · exact Or.inl rfl
    · split
      · exact Or.inl rfl
      · rename_i o ho
        split
        · exact Or.inr (Or.inl ⟨hst, rfl⟩)
        · cases Synapse with
          | false => exact Or.inl rfl
          | true =>
            refine Or.inr (Or.inr ⟨o, ho, hst, rfl, ?_⟩)
            simp [SetDialogueState, hst, BuildTemplateVariables, isEmpty_eq_decide]

theorem HandleLLMResponse_result (c : USQDialogueComponent) (r : FSynapseResponse) :
    (c.DialogueState ≠ ESQDialogueState.WaitingForNPC ∧ HandleLLMResponse c r = (c, [])) ∨
      (c.DialogueState = ESQDialogueState.WaitingForNPC ∧
        HandleLLMResponse c r =
          ({ c with
              DialogueState := ESQDialogueState.PlayerChoosing,
              CurrentLine :=
                if r.IsSuccess then ParseResponse r.Content else ErrorLine r.ErrorMessage },
            [Effect.OnDialogueStateChanged ESQDialogueState.PlayerChoosing,
              Effect.OnDialogueLineReady
                (if r.IsSuccess then ParseResponse r.Content
                  else ErrorLine r.ErrorMessage)])) := by
  by_cases hstate : c.DialogueState = ESQDialogueState.WaitingForNPC
  · right
    refine ⟨hstate, ?_⟩
    cases hs : r.IsSuccess <;> simp [HandleLLMResponse, SetDialogueState, hstate, hs]
  · left
    exact ⟨hstate, by simp [HandleLLMResponse, hstate]⟩

theorem NotifiedState_append (s : ESQDialogueState) (a b : List Effect) :
    NotifiedState s (a ++ b) = (NotifiedState s a).bind (fun s2 => NotifiedState s2 b) := by
  induction a generalizing s with
  | nil => rfl
  | cons e a ih =>
    cases e with
    | OnDialogueStateChanged NewState =>
      by_cases h : NewState = s
      · simp [NotifiedState, h]
      · simp [NotifiedState, h, ih]
    | ClearHistory => simpa [NotifiedState] using ih s
    | SetUseConversationHistory b => simpa [NotifiedState] using ih s
    | ChatWithSystem x y z => simpa [NotifiedState] using ih s
    | Chat x y => simpa [NotifiedState] using ih s
    | CancelAllRequests => simpa [NotifiedState] using ih s
    | OnDialogueLineReady l => simpa [NotifiedState] using ih s
    | OnDialogueEnded => simpa [NotifiedState] using ih s

theorem EndDialogue_notified (Synapse : Bool) (c : USQDialogueComponent) :
    NotifiedState c.DialogueState (EndDialogue Synapse c).2 =
        some (EndDialogue Synapse c).1.DialogueState ∧
      (∀ s, Effect.OnDialogueStateChanged s ∈ (EndDialogue Synapse c).2 ↔
        s = (EndDialogue Synapse c).1.DialogueState ∧ s ≠ c.DialogueState) ∧
      (EndDialogue Synapse c).2.filter Effect.IsChatRequest = [] := by
  rcases EndDialogue_result Synapse c with ⟨hs, h⟩ | ⟨hs, h⟩
  · rw [h]
    simp [NotifiedState]
  · rw [h]
    have hs2 : ¬ ESQDialogueState.Inactive = c.DialogueState := fun e => hs e.symm
    refine ⟨?_, ?_, ?_⟩
    · cases Synapse <;> simp [NotifiedState, hs2]
    · intro s
      cases Synapse <;> simp <;> intro h2 <;> rw [h2] <;> exact hs2
    · cases Synapse <;> simp [Effect.IsChatRequest]

theorem Apply_notified (c : USQDialogueComponent) (op : Operation) :
    NotifiedState c.DialogueState (Apply c op).2 = some (Apply c op).1.DialogueState ∧
      ∀ s, Effect.OnDialogueStateChanged s ∈ (Apply c op).2 ↔
        s = (Apply c op).1.DialogueState ∧ s ≠ c.DialogueState := by
  cases op with
  | Start Synapse PlayerName =>
    simp only [Apply]
    rcases StartDialogue_result Synapse c PlayerName with h | ⟨hs, _, h⟩
    · rw [h]
      simp [NotifiedState]
    · rw [h]
      simp [NotifiedState, hs]
  | Select Synapse OptionIndex =>
    simp only [Apply]
    rcases SelectOption_result Synapse c OptionIndex with h | ⟨_, h⟩ | ⟨o, _, hs, _, h⟩
    · rw [h]
      simp [NotifiedState]
    · rw [h]
      exact ⟨(EndDialogue_notified Synapse c).1, (EndDialogue_notified Synapse c).2.1⟩
    · rw [h]
      simp [NotifiedState, hs]
  | End Synapse =>
    simp only [Apply]
    exact ⟨(EndDialogue_notified Synapse c).1, (EndDialogue_notified Synapse c).2.1⟩
  | Response Response =>
    simp only [Apply]
    rcases HandleLLMResponse_result c Response with ⟨_, h⟩ | ⟨hs, h⟩
    · rw [h]
      simp [NotifiedState]
    · rw [h]
      simp [NotifiedState, hs]

theorem Run_notified (c : USQDialogueComponent) (ops : List Operation) :
    NotifiedState c.DialogueState (Run c ops).2 = some (Run c ops).1.DialogueState := by
  induction ops generalizing c with
  | nil => rfl
  | cons op ops ih =>
    simp only [Run]
    rw [NotifiedState_append, (Apply_notified c op).1]
    exact ih (Apply c op).1

theorem Apply_line_inv (P : FSQDialogueLine → Prop) (hErr : ∀ e, P (ErrorLine e))
    (hParse : ∀ t, P (ParseResponse t)) (c : USQDialogueComponent) (op : Operation)
    (hinv : c.DialogueState = ESQDialogueState.PlayerChoosing → P c.CurrentLine)
    (hstate : (Apply c op).1.DialogueState = ESQDialogueState.PlayerChoosing) :
    P (Apply c op).1.CurrentLine := by
  cases op with
  | Start Synapse PlayerName =>
    simp only [Apply] at hstate ⊢
    rcases StartDialogue_result Synapse c PlayerName with h | ⟨_, _, h⟩
    · rw [h] at hstate ⊢
      exact hinv hstate
    · rw [h] at hstate
      exact absurd hstate (by simp)
  | Select Synapse OptionIndex =>
    simp only [Apply] at hstate ⊢
    rcases SelectOption_result Synapse c OptionIndex with h | ⟨_, h⟩ | ⟨o, _, _, _, h⟩
    · rw [h] at hstate ⊢
      exact hinv hstate
    · rw [h, EndDialogue_state] at hstate
      exact absurd hstate (by decide)
    · rw [h] at hstate
      exact absurd hstate (by simp)
  | End Synapse =>
    simp only [Apply] at hstate
    rw [EndDialogue_state] at hstate
    exact absurd hstate (by decide)
  | Response Response =>
    simp only [Apply] at hstate ⊢
    rcases HandleLLMResponse_result c Response with ⟨_, h⟩ | ⟨_, h⟩
    · rw [h] at hstate ⊢
      exact hinv hstate
    · rw [h]
      cases hs : Response.IsSuccess with
      | false => simpa using hErr Response.ErrorMessage
      | true => simpa using hParse Response.Content

theorem Reachable_line_inv (P : FSQDialogueLine → Prop) (hErr : ∀ e, P (ErrorLine e))
    (hParse : ∀ t, P (ParseResponse t)) (c : USQDialogueComponent) (hreach : Reachable c)
    (hstate : c.DialogueState = ESQDialogueState.PlayerChoosing) : P c.CurrentLine := by
  obtain ⟨n, o, e, ops, rfl⟩ := hreach
  have key : ∀ (ops : List Operation) (c : USQDialogueComponent),
      (c.DialogueState = ESQDialogueState.PlayerChoosing → P c.CurrentLine) →
      (Run c ops).1.DialogueState = ESQDialogueState.PlayerChoosing →
      P (Run c ops).1.CurrentLine := by
    intro ops
    induction ops with
    | nil => intro c hinv; exact hinv
    | cons op ops ih =>
      intro c hinv
      simp only [Run]
      exact ih (Apply c op).1 (Apply_line_inv P hErr hParse c op hinv)
  exact key ops _ (fun h => absurd h (by simp [InitialComponent])) hstate

theorem Apply_inactive_inv (c : USQDialogueComponent) (op : Operation)
    (hinv : c.DialogueState = ESQDialogueState.Inactive →
      c.CurrentLine = DefaultLine ∧ c.CurrentPlayerName = [])
    (hstate : (Apply c op).1.DialogueState = ESQDialogueState.Inactive) :
    (Apply c op).1.CurrentLine = DefaultLine ∧ (Apply c op).1.CurrentPlayerName = [] := by
  have hend : ∀ Synapse, (EndDialogue Synapse c).1.CurrentLine = DefaultLine ∧
      (EndDialogue Synapse c).1.CurrentPlayerName = [] := by
    intro Synapse
    rcases EndDialogue_result Synapse c with ⟨hs, h⟩ | ⟨_, h⟩
    · rw [h]
      exact hinv hs
    · rw [h]
      exact ⟨rfl, rfl⟩
  cases op with
  | Start Synapse PlayerName =>
    simp only [Apply] at hstate ⊢
    rcases StartDialogue_result Synapse c PlayerName with h | ⟨_, _, h⟩
    · rw [h] at hstate ⊢
      exact hinv hstate
    · rw [h] at hstate
      exact absurd hstate (by simp)
  | Select Synapse OptionIndex =>
    simp only [Apply] at hstate ⊢
    rcases SelectOption_result Synapse c OptionIndex with h | ⟨_, h⟩ | ⟨o, _, _, _, h⟩
    · rw [h] at hstate ⊢
      exact hinv hstate
    · rw [h]
      exact hend Synapse
    · rw [h] at hstate
      exact absurd hstate (by simp)
  | End Synapse =>
    simp only [Apply]
    exact hend Synapse
  | Response Response =>
    simp only [Apply] at hstate ⊢
    rcases HandleLLMResponse_result c Response with ⟨_, h⟩ | ⟨_, h⟩
    · rw [h] at hstate ⊢
      exact hinv hstate
    · rw [h] at hstate
      exact absurd hstate (by simp)

theorem Run_inactive_inv (ops : List Operation) (c : USQDialogueComponent)
    (hinv : c.DialogueState = ESQDialogueState.Inactive →
      c.CurrentLine = DefaultLine ∧ c.CurrentPlayerName = []) :
    (Run c ops).1.DialogueState = ESQDialogueState.Inactive →
      (Run c ops).1.CurrentLine = DefaultLine ∧ (Run c ops).1.CurrentPlayerName = [] := by
  induction ops generalizing c with
  | nil => exact hinv
  | cons op ops ih =>
    simp only [Run]
    exact ih (Apply c op).1 (Apply_inactive_inv c op hinv)

theorem ErrorLine_labels (e : FString) : ∀ o ∈ (ErrorLine e).Options, o.Text ≠ [] := by
  intro o ho
  simp only [ErrorLine, List.mem_singleton] at ho
  rw [ho]
  decide

theorem ParseResponse_labels (text : FString) :
    ∀ o ∈ (ParseResponse text).Options, o.Text ≠ [] := by
  intro o ho
  unfold ParseResponse EnsureOptions at ho
  rw [ParseOptionsBlock_eq] at ho
  split at ho
  · rename_i h0
    have hnil := List.length_eq_zero.mp h0
    simp only at hnil
    simp only [hnil, List.nil_append, List.mem_cons, List.mem_singleton,
      List.not_mem_nil, or_false] at ho
    rcases ho with rfl | rfl <;> decide
  · simp only [List.mem_filterMap] at ho
    obtain ⟨T, _, hT⟩ := ho
    exact SpecOptionOfLine_label_ne_nil T o hT

theorem TMap_Keys_Add (m : TMap) (Key Value k : FString)
    (hk : k ∈ TMap.Keys (TMap.Add m Key Value)) : k ∈ TMap.Keys m ∨ k = Key := by
  induction m with
  | nil => simpa [TMap.Add, TMap.Keys] using hk
  | cons e m ih =>
    obtain ⟨a, b⟩ := e
    by_cases ha : EqualsIgnoreCase a Key = true
    · simp only [TMap.Add, ha, if_true, TMap.Keys, List.map_cons, List.mem_cons] at hk ⊢
      tauto
    · simp only [TMap.Keys] at ih
      simp only [TMap.Add, ha, Bool.false_eq_true, if_false, TMap.Keys, List.map_cons,
        List.mem_cons] at hk ⊢
      rcases hk with h | h
      · exact Or.inl (Or.inl h)
      · rcases ih h with h2 | h2
        · exact Or.inl (Or.inr h2)
        · exact Or.inr h2

/-- C21: `EndDialogue` on a component whose state is not `Inactive` asks the
backend, when there is one, to cancel its requests, resets the current line
to the default line (empty text, no options, no goodbye flag), empties the
player name, sets the state to `Inactive`, and broadcasts state-changed
(`Inactive`) once and then dialogue-ended once; it makes no chat request. -/
theorem EndDialogue_from_active (Synapse : Bool) (c : USQDialogueComponent)
    (hstate : c.DialogueState ≠ ESQDialogueState.Inactive) :
    EndDialogue Synapse c =
        (⟨c.NPCName, c.OpeningPrompt, c.ExtraTemplateVariables, ESQDialogueState.Inactive,
            ⟨[], [], false⟩, []⟩,
          (if Synapse then [Effect.CancelAllRequests] else []) ++
            [Effect.OnDialogueStateChanged ESQDialogueState.Inactive,
              Effect.OnDialogueEnded]) ∧
      (EndDialogue Synapse c).2.filter Effect.IsChatRequest = [] ∧
      (EndDialogue Synapse c).2.count
          (Effect.OnDialogueStateChanged ESQDialogueState.Inactive) = 1 ∧
      (EndDialogue Synapse c).2.count Effect.OnDialogueEnded = 1 := by
  have h := EndDialogue_of_active Synapse c hstate
  refine ⟨h, ?_, ?_, ?_⟩
  · rw [h]
    cases Synapse <;> simp [Effect.IsChatRequest]
  · rw [h]
    cases Synapse <;> simp
  · rw [h]
    cases Synapse <;> simp

theorem EndDialogue_from_active_witness :
    EndDialogue true
        ⟨"NPC".toList, "Greet".toList, [], ESQDialogueState.WaitingForNPC,
          ParseResponse "Hello.".toList, "Ann".toList⟩ =
      (⟨"NPC".toList, "Greet".toList, [], ESQDialogueState.Inactive, ⟨[], [], false⟩, []⟩,
        [Effect.CancelAllRequests, Effect.OnDialogueStateChanged ESQDialogueState.Inactive,
          Effect.OnDialogueEnded]) :=
  (EndDialogue_from_active true
    ⟨"NPC".toList, "Greet".toList, [], ESQDialogueState.WaitingForNPC,
      ParseResponse "Hello.".toList, "Ann".toList⟩ (by decide)).1

/-- C22: in the state `WaitingForNPC`, a successful response with content
`r.Content` replaces the current line by `ParseResponse r.Content`, sets the
state to `PlayerChoosing`, and broadcasts line-ready once, with that
line. -/
theorem HandleLLMResponse_success (c : USQDialogueComponent) (r : FSynapseResponse)
    (hstate : c.DialogueState = ESQDialogueState.WaitingForNPC)
    (hs : r.IsSuccess = true) :
    HandleLLMResponse c r =
        ({ c with
            DialogueState := ESQDialogueState.PlayerChoosing,
            CurrentLine := ParseResponse r.Content },
          [Effect.OnDialogueStateChanged ESQDialogueState.PlayerChoosing,
            Effect.OnDialogueLineReady (ParseResponse r.Content)]) ∧
      (HandleLLMResponse c r).1.CurrentLine = ParseResponse r.Content ∧
      (HandleLLMResponse c r).1.DialogueState = ESQDialogueState.PlayerChoosing := by
  have h : HandleLLMResponse c r =
      ({ c with
          DialogueState := ESQDialogueState.PlayerChoosing,
          CurrentLine := ParseResponse r.Content },
        [Effect.OnDialogueStateChanged ESQDialogueState.PlayerChoosing,
          Effect.OnDialogueLineReady (ParseResponse r.Content)]) := by
    simp [HandleLLMResponse, SetDialogueState, hstate, hs]
  refine ⟨h, ?_, ?_⟩ <;> rw [h]

theorem HandleLLMResponse_success_witness :
    HandleLLMResponse
        ⟨"NPC".toList, "Greet".toList, [], ESQDialogueState.WaitingForNPC,
          ErrorLine "old".toList, "Ann".toList⟩
        ⟨true, "Hi.\n[OPTIONS]\n[GOODBYE] Leave".toList, []⟩ =
      (⟨"NPC".toList, "Greet".toList, [], ESQDialogueState.PlayerChoosing,
          ⟨"Hi.".toList, [⟨"Leave".toList, ESQDialogueTone.Neutral, "Leave".toList⟩], true⟩,
          "Ann".toList⟩,
        [Effect.OnDialogueStateChanged ESQDialogueState.PlayerChoosing,
          Effect.OnDialogueLineReady
            ⟨"Hi.".toList, [⟨"Leave".toList, ESQDialogueTone.Neutral, "Leave".toList⟩],
              true⟩]) :=
  ((HandleLLMResponse_success
    ⟨"NPC".toList, "Greet".toList, [], ESQDialogueState.WaitingForNPC,
      ErrorLine "old".toList, "Ann".toList⟩
    ⟨true, "Hi.\n[OPTIONS]\n[GOODBYE] Leave".toList, []⟩ rfl rfl).1).trans (by decide)

/-- C23: in the state `WaitingForNPC`, a failed response with error message
`r.ErrorMessage` replaces the current line by a line whose text holds the
message (between a fixed beginning and a fixed end), whose only option has
the label `Leave`, the tone Neutral and an empty full response, and whose
goodbye flag is set; the state becomes `PlayerChoosing` and line-ready is
broadcast once, with that line. -/
theorem HandleLLMResponse_failure (c : USQDialogueComponent) (r : FSynapseResponse)
    (hstate : c.DialogueState = ESQDialogueState.WaitingForNPC)
    (hs : r.IsSuccess = false) :
    HandleLLMResponse c r =
        ({ c with
            DialogueState := ESQDialogueState.PlayerChoosing,
            CurrentLine :=
              ⟨"(I seem to have lost my train of thought... [".toList ++ r.ErrorMessage ++
                  "])".toList,
                [⟨"Leave".toList, ESQDialogueTone.Neutral, []⟩], true⟩ },
          [Effect.OnDialogueStateChanged ESQDialogueState.PlayerChoosing,
            Effect.OnDialogueLineReady
              ⟨"(I seem to have lost my train of thought... [".toList ++ r.ErrorMessage ++
                  "])".toList,
                [⟨"Leave".toList, ESQDialogueTone.Neutral, []⟩], true⟩]) ∧
      r.ErrorMessage <:+: (HandleLLMResponse c r).1.CurrentLine.NPCText ∧
      (HandleLLMResponse c r).1.CurrentLine.Options =
        [⟨"Leave".toList, ESQDialogueTone.Neutral, []⟩] ∧
      (HandleLLMResponse c r).1.CurrentLine.bIsGoodbye = true ∧
      (HandleLLMResponse c r).1.DialogueState = ESQDialogueState.PlayerChoosing := by
  have h : HandleLLMResponse c r =
      ({ c with
          DialogueState := ESQDialogueState.PlayerChoosing,
          CurrentLine :=
            ⟨"(I seem to have lost my train of thought... [".toList ++ r.ErrorMessage ++
                "])".toList,
              [⟨"Leave".toList, ESQDialogueTone.Neutral, []⟩], true⟩ },
        [Effect.OnDialogueStateChanged ESQDialogueState.PlayerChoosing,
          Effect.OnDialogueLineReady
            ⟨"(I seem to have lost my train of thought... [".toList ++ r.ErrorMessage ++
                "])".toList,
              [⟨"Leave".toList, ESQDialogueTone.Neutral, []⟩], true⟩]) := by
    simp [HandleLLMResponse, SetDialogueState, hstate, hs, ErrorLine]
  refine ⟨h, ?_, ?_, ?_, ?_⟩
  · rw [h]
    exact ⟨"(I seem to have lost my train of thought... [".toList, "])".toList, rfl⟩
  · rw [h]
  · rw [h]
  · rw [h]

theorem HandleLLMResponse_failure_witness :
    HandleLLMResponse
        ⟨"NPC".toList, "Greet".toList, [], ESQDialogueState.WaitingForNPC,
          ParseResponse "Hello.".toList, "Ann".toList⟩
        ⟨false, [], "timeout".toList⟩ =
      (⟨"NPC".toList, "Greet".toList, [], ESQDialogueState.PlayerChoosing,
          ⟨"(I seem to have lost my train of thought... [timeout])".toList,
            [⟨"Leave".toList, ESQDialogueTone.Neutral, []⟩], true⟩,
          "Ann".toList⟩,
        [Effect.OnDialogueStateChanged ESQDialogueState.PlayerChoosing,
          Effect.OnDialogueLineReady
            ⟨"(I seem to have lost my train of thought... [timeout])".toList,
              [⟨"Leave".toList, ESQDialogueTone.Neutral, []⟩], true⟩]) :=
  ((HandleLLMResponse_failure
    ⟨"NPC".toList, "Greet".toList, [], ESQDialogueState.WaitingForNPC,
      ParseResponse "Hello.".toList, "Ann".toList⟩
    ⟨false, [], "timeout".toList⟩ rfl rfl).1).trans (by decide)

/-- C24: `SetDialogueState` broadcasts state-changed once, with the new
state, when the new state differs from the current one, and does nothing at
all when they are equal.  Hence, for every call of an entry point, a
state-changed broadcast carries the state after the call and this differs
from the state before it, and a call that changes the state makes that
broadcast; and along every sequence of calls the broadcasts, each different
from the state held just before it, lead from the first state to the
last. -/
theorem SetDialogueState_notifies :
    (∀ (c : USQDialogueComponent) (s : ESQDialogueState), c.DialogueState ≠ s →
        SetDialogueState c s =
          ({ c with DialogueState := s }, [Effect.OnDialogueStateChanged s])) ∧
      (∀ (c : USQDialogueComponent) (s : ESQDialogueState), c.DialogueState = s →
        SetDialogueState c s = (c, [])) ∧
      (∀ (c : USQDialogueComponent) (op : Operation) (s : ESQDialogueState),
        Effect.OnDialogueStateChanged s ∈ (Apply c op).2 ↔
          s = (Apply c op).1.DialogueState ∧ s ≠ c.DialogueState) ∧
      ∀ (c : USQDialogueComponent) (ops : List Operation),
        NotifiedState c.DialogueState (Run c ops).2 = some (Run c ops).1.DialogueState := by
  refine ⟨?_, ?_, ?_, ?_⟩
  · intro c s h
    simp [SetDialogueState, h]
  · intro c s h
    simp [SetDialogueState, h]
  · intro c op s
    exact (Apply_notified c op).2 s
  · intro c ops
    exact Run_notified c ops

theorem SetDialogueState_notifies_witness :
    SetDialogueState (InitialComponent "NPC".toList "Greet".toList [])
          ESQDialogueState.WaitingForNPC =
        (⟨"NPC".toList, "Greet".toList, [], ESQDialogueState.WaitingForNPC, DefaultLine, []⟩,
          [Effect.OnDialogueStateChanged ESQDialogueState.WaitingForNPC]) ∧
      SetDialogueState (InitialComponent "NPC".toList "Greet".toList [])
          ESQDialogueState.Inactive =
        (InitialComponent "NPC".toList "Greet".toList [], []) ∧
      NotifiedState ESQDialogueState.Inactive
          (Run (InitialComponent "NPC".toList "Greet".toList [])
            [Operation.Start true "Ann".toList, Operation.Start true "Bob".toList,
              Operation.Response ⟨false, [], "timeout".toList⟩, Operation.End true,
              Operation.Select true 0, Operation.End true]).2 =
        some ESQDialogueState.Inactive :=
  ⟨SetDialogueState_notifies.1 _ _ (by decide),
    SetDialogueState_notifies.2.1 _ _ rfl,
    (SetDialogueState_notifies.2.2.2 (InitialComponent "NPC".toList "Greet".toList [])
      [Operation.Start true "Ann".toList, Operation.Start true "Bob".toList,
        Operation.Response ⟨false, [], "timeout".toList⟩, Operation.End true,
        Operation.Select true 0, Operation.End true]).trans (by decide)⟩

/-- C25: after a failed response delivered in the state `WaitingForNPC`,
`SelectOption 0` is accepted whether or not there is a backend: it makes no
chat request, leaves the state `Inactive` and broadcasts dialogue-ended. -/
theorem SelectOption_after_failure (Synapse : Bool) (c : USQDialogueComponent)
    (r : FSynapseResponse)
    (hstate : c.DialogueState = ESQDialogueState.WaitingForNPC)
    (hs : r.IsSuccess = false) :
    SelectOption Synapse (HandleLLMResponse c r).1 0 =
        (⟨c.NPCName, c.OpeningPrompt, c.ExtraTemplateVariables, ESQDialogueState.Inactive,
            DefaultLine, []⟩,
          (if Synapse then [Effect.CancelAllRequests] else []) ++
            [Effect.OnDialogueStateChanged ESQDialogueState.Inactive,
              Effect.OnDialogueEnded]) ∧
      (SelectOption Synapse (HandleLLMResponse c r).1 0).2.filter Effect.IsChatRequest = [] ∧
      Effect.OnDialogueEnded ∈ (SelectOption Synapse (HandleLLMResponse c r).1 0).2 := by
  have hh : (HandleLLMResponse c r).1 =
      { c with
        DialogueState := ESQDialogueState.PlayerChoosing,
        CurrentLine := ErrorLine r.ErrorMessage } := by
    simp [HandleLLMResponse, SetDialogueState, hstate, hs]
  have h : SelectOption Synapse (HandleLLMResponse c r).1 0 =
      (⟨c.NPCName, c.OpeningPrompt, c.ExtraTemplateVariables, ESQDialogueState.Inactive,
          DefaultLine, []⟩,
        (if Synapse then [Effect.CancelAllRequests] else []) ++
          [Effect.OnDialogueStateChanged ESQDialogueState.Inactive,
            Effect.OnDialogueEnded]) := by
    rw [hh]
    simp [SelectOption, IsValidIndex, ErrorLine, EndDialogue, SetDialogueState]
  refine ⟨h, ?_, ?_⟩
  · rw [h]
    cases Synapse <;> simp [Effect.IsChatRequest]
  · rw [h]
    simp

theorem SelectOption_after_failure_witness :
    SelectOption false
        (HandleLLMResponse
          ⟨"NPC".toList, "Greet".toList, [], ESQDialogueState.WaitingForNPC, DefaultLine,
            "Ann".toList⟩
          ⟨false, [], "timeout".toList⟩).1 0 =
      (⟨"NPC".toList, "Greet".toList, [], ESQDialogueState.Inactive, DefaultLine, []⟩,
        [Effect.OnDialogueStateChanged ESQDialogueState.Inactive, Effect.OnDialogueEnded]) :=
  (SelectOption_after_failure false
    ⟨"NPC".toList, "Greet".toList, [], ESQDialogueState.WaitingForNPC, DefaultLine,
      "Ann".toList⟩
    ⟨false, [], "timeout".toList⟩ rfl rfl).1

/-- C26: a call of an entry point that makes a chat request is an accepted
`StartDialogue` (from the state `Inactive`) or an accepted `SelectOption`
(from the state `PlayerChoosing`), it leaves the state `WaitingForNPC`, and
it makes exactly one request; and no call made in the state `WaitingForNPC`
makes a chat request. -/
theorem chat_requests_only_at_transitions (c : USQDialogueComponent) (op : Operation) :
    ((Apply c op).2.filter Effect.IsChatRequest ≠ [] →
        ((∃ p, op = Operation.Start true p ∧
              c.DialogueState = ESQDialogueState.Inactive) ∨
            (∃ i, op = Operation.Select true i ∧
              c.DialogueState = ESQDialogueState.PlayerChoosing)) ∧
          (Apply c op).1.DialogueState = ESQDialogueState.WaitingForNPC ∧
          ((Apply c op).2.filter Effect.IsChatRequest).length = 1) ∧
      (c.DialogueState = ESQDialogueState.WaitingForNPC →
        (Apply c op).2.filter Effect.IsChatRequest = []) := by
  cases op with
  | Start Synapse PlayerName =>
    simp only [Apply]
    rcases StartDialogue_result Synapse c PlayerName with h | ⟨hs, hsyn, h⟩
    · rw [h]
      simp
    · rw [h]
      subst hsyn
      refine ⟨fun _ => ⟨Or.inl ⟨PlayerName, rfl, hs⟩, rfl, by simp [Effect.IsChatRequest]⟩, ?_⟩
      intro hw
      rw [hs] at hw
      exact absurd hw (by decide)
  | Select Synapse OptionIndex =>
    simp only [Apply]
    rcases SelectOption_result Synapse c OptionIndex with h | ⟨_, h⟩ | ⟨o, _, hs, hsyn, h⟩
    · rw [h]
      simp
    · rw [h, (EndDialogue_notified Synapse c).2.2]
      simp
    · rw [h]
      subst hsyn
      refine ⟨fun _ => ⟨Or.inr ⟨OptionIndex, rfl, hs⟩, rfl, by simp [Effect.IsChatRequest]⟩,
        ?_⟩
      intro hw
      rw [hs] at hw
      exact absurd hw (by decide)
  | End Synapse =>
    simp only [Apply]
    rw [(EndDialogue_notified Synapse c).2.2]
    simp
  | Response Response =>
    simp only [Apply]
    rcases HandleLLMResponse_result c Response with ⟨_, h⟩ | ⟨_, h⟩
    · rw [h]
      simp
    · rw [h]
      simp [Effect.IsChatRequest]

theorem chat_requests_only_at_transitions_witness :
    ((Apply
          ⟨"NPC".toList, "Greet".toList, [], ESQDialogueState.PlayerChoosing,
            ParseResponse "Hello.".toList, "Ann".toList⟩
          (Operation.Select true 0)).2.filter Effect.IsChatRequest).length = 1 ∧
      (Apply
          ⟨"NPC".toList, "Greet".toList, [], ESQDialogueState.WaitingForNPC, DefaultLine,
            "Ann".toList⟩
          (Operation.Start true "Bob".toList)).2.filter Effect.IsChatRequest = [] :=
  ⟨((chat_requests_only_at_transitions
      ⟨"NPC".toList, "Greet".toList, [], ESQDialogueState.PlayerChoosing,
        ParseResponse "Hello.".toList, "Ann".toList⟩
      (Operation.Select true 0)).1 (by decide)).2.2,
    (chat_requests_only_at_transitions
      ⟨"NPC".toList, "Greet".toList, [], ESQDialogueState.WaitingForNPC, DefaultLine,
        "Ann".toList⟩
      (Operation.Start true "Bob".toList)).2 rfl⟩

/-- C27: for every text, `ParseResponse` returns what the reference parser
returns, which splits at the first case-insensitive occurrence of
`[OPTIONS]` and never looks at the last `[`; and when the last `[` of the
text begins the marker, the search for the marker succeeds, so that the
not-found case of that branch is never taken. -/
theorem ParseResponse_eq_reference (text : FString) :
    ParseResponse text = RefParseResponse text ∧
      ∀ OptionsIdx, FindLastChar text '[' = some OptionsIdx →
        StartsWith (Mid text OptionsIdx) OptionsTag = true →
        ∃ TagPos, Find text OptionsTag = some TagPos := by
  constructor
  · unfold ParseResponse RefParseResponse
    rw [SplitOnOptionsTag_eq, SpecFirstMarker_eq_Find]
    cases Find text OptionsTag <;> rfl
  · intro OptionsIdx _ hstart
    rw [StartsWith_eq_decide _ _ (by decide)] at hstart
    have hocc : OccursAt text OptionsTag OptionsIdx := by simpa [Mid, OccursAt] using hstart
    cases hfind : Find text OptionsTag with
    | some TagPos => exact ⟨TagPos, rfl⟩
    | none =>
      exact absurd hocc ((Find_eq_none_iff text OptionsTag (by decide)).mp hfind OptionsIdx)

theorem ParseResponse_eq_reference_witness :
    ParseResponse "Hi [x]\n[options]\nA | a\n[Options] b".toList =
        RefParseResponse "Hi [x]\n[options]\nA | a\n[Options] b".toList ∧
      FindLastChar "Hi [x]\n[options]\nA | a\n[Options] b".toList '[' = some 23 ∧
      StartsWith (Mid "Hi [x]\n[options]\nA | a\n[Options] b".toList 23) OptionsTag = true ∧
      ∃ TagPos, Find "Hi [x]\n[options]\nA | a\n[Options] b".toList OptionsTag = some TagPos :=
  ⟨(ParseResponse_eq_reference "Hi [x]\n[options]\nA | a\n[Options] b".toList).1,
    by decide, by decide,
    (ParseResponse_eq_reference "Hi [x]\n[options]\nA | a\n[Options] b".toList).2 23
      (by decide) (by decide)⟩

/-- C28: in every component that a sequence of calls produces from a
constructed one, the state `Inactive` goes with the default line (empty
text, no options, no goodbye flag) and an empty player name. -/
theorem Reachable_inactive_default (c : USQDialogueComponent) (hreach : Reachable c)
    (hstate : c.DialogueState = ESQDialogueState.Inactive) :
    c.CurrentLine = ⟨[], [], false⟩ ∧ c.CurrentPlayerName = [] := by
  obtain ⟨n, o, e, ops, rfl⟩ := hreach
  exact Run_inactive_inv ops _ (fun _ => ⟨rfl, rfl⟩) hstate

theorem Reachable_inactive_default_witness :
    Reachable
        (Run (InitialComponent "NPC".toList "Greet".toList [])
          [Operation.Start true "Ann".toList,
            Operation.Response ⟨true, "Hello.".toList, []⟩, Operation.Select true 1]).1 ∧
      (Run (InitialComponent "NPC".toList "Greet".toList [])
          [Operation.Start true "Ann".toList,
            Operation.Response ⟨true, "Hello.".toList, []⟩,
            Operation.Select true 1]).1.DialogueState = ESQDialogueState.Inactive ∧
      (Run (InitialComponent "NPC".toList "Greet".toList [])
          [Operation.Start true "Ann".toList,
            Operation.Response ⟨true, "Hello.".toList, []⟩,
            Operation.Select true 1]).1.CurrentLine = ⟨[], [], false⟩ ∧
      (Run (InitialComponent "NPC".toList "Greet".toList [])
          [Operation.Start true "Ann".toList,
            Operation.Response ⟨true, "Hello.".toList, []⟩,
            Operation.Select true 1]).1.CurrentPlayerName = [] :=
  ⟨⟨_, _, _, _, rfl⟩, by decide,
    Reachable_inactive_default _ ⟨_, _, _, _, rfl⟩ (by decide)⟩

/-- C29: in every component that a sequence of calls produces from a
constructed one, the state `PlayerChoosing` goes with a current line that
has at least one option, so that the index 0 is valid; and every chat
request that `SelectOption` makes on such a component carries a message
that is not empty, also when the full response of the chosen option is
empty. -/
theorem Reachable_choosing_has_options (c : USQDialogueComponent) (hreach : Reachable c) :
    (c.DialogueState = ESQDialogueState.PlayerChoosing →
        c.CurrentLine.Options ≠ [] ∧ IsValidIndex c.CurrentLine.Options 0 = true) ∧
      ∀ (Synapse : Bool) (i : Int) (Message : FString) (Vars : TMap),
        Effect.Chat Message Vars ∈ (SelectOption Synapse c i).2 → Message ≠ [] := by
  constructor
  · intro hstate
    have hne := Reachable_options_ne_nil c hreach hstate
    have hpos : 0 < c.CurrentLine.Options.length := List.length_pos.mpr hne
    exact ⟨hne, (IsValidIndex_iff _ _).mpr ⟨le_refl 0, by omega⟩⟩
  · intro Synapse i Message Vars hmem
    rcases SelectOption_result Synapse c i with h | ⟨_, h⟩ | ⟨o, ho, hstate, _, h⟩
    · rw [h] at hmem
      simp at hmem
    · rw [h] at hmem
      have hnone := (EndDialogue_notified Synapse c).2.2
      have : Effect.Chat Message Vars ∈
          (EndDialogue Synapse c).2.filter Effect.IsChatRequest :=
        List.mem_filter.mpr ⟨hmem, rfl⟩
      rw [hnone] at this
      simp at this
    · rw [h] at hmem
      simp only [List.mem_cons, List.mem_singleton, Effect.Chat.injEq, List.not_mem_nil,
        or_false, false_or, reduceCtorEq] at hmem
      have hlabels : ∀ o ∈ c.CurrentLine.Options, o.Text ≠ [] :=
        Reachable_line_inv (fun l => ∀ o ∈ l.Options, o.Text ≠ [])
          ErrorLine_labels ParseResponse_labels c hreach hstate
      have hText := hlabels o (List.getElem?_mem ho)
      rw [hmem.1]
      by_cases hf : o.FullResponse = []
      · simpa [hf] using hText
      · simp [hf]

theorem Reachable_choosing_has_options_witness :
    Reachable
        (Run (InitialComponent "NPC".toList "Greet".toList [])
          [Operation.Start true "Ann".toList,
            Operation.Response ⟨true, "Hello.".toList, []⟩]).1 ∧
      (Run (InitialComponent "NPC".toList "Greet".toList [])
          [Operation.Start true "Ann".toList,
            Operation.Response ⟨true, "Hello.".toList, []⟩]).1.CurrentLine.Options ≠ [] :=
  ⟨⟨_, _, _, _, rfl⟩,
    ((Reachable_choosing_has_options _ ⟨_, _, _, _, rfl⟩).1 (by decide)).1⟩

/-- C30, as stated, fails: with the extra variable `npcname` set to `x`, the
key `npcname` is neither the string `NPCName` nor the string `PlayerName`,
yet the mapping sends it to the NPC name `Mira` where the extra variables
send it to `x`: the map matches keys ignoring case, so that `Add` for
`NPCName` replaces the pair stored under `npcname`. -/
theorem BuildTemplateVariables_case_variant_key :
    "npcname".toList ≠ "NPCName".toList ∧
      "npcname".toList ≠ "PlayerName".toList ∧
      BuildTemplateVariables
          ⟨"Mira".toList, "Greet".toList, [("npcname".toList, "x".toList)],
            ESQDialogueState.Inactive, DefaultLine, "Ann".toList⟩ =
        [("NPCName".toList, "Mira".toList), ("PlayerName".toList, "Ann".toList)] ∧
      TMap.Find
          (BuildTemplateVariables
            ⟨"Mira".toList, "Greet".toList, [("npcname".toList, "x".toList)],
              ESQDialogueState.Inactive, DefaultLine, "Ann".toList⟩)
          "npcname".toList = some "Mira".toList ∧
      TMap.Find [("npcname".toList, "x".toList)] "npcname".toList = some "x".toList := by
  decide

/-- C30, amended: the mapping of `BuildTemplateVariables` sends `NPCName`,
and every key that matches it ignoring case, to the NPC name, and
`PlayerName`, and every key that matches it ignoring case, to the current
player name, also when the extra variables define these keys; it gives
every key that matches neither of the two what the extra variables give it;
and it stores no key besides those of the extra variables, `NPCName` and
`PlayerName`. -/
theorem BuildTemplateVariables_lookup (c : USQDialogueComponent) :
    TMap.Find (BuildTemplateVariables c) "NPCName".toList = some c.NPCName ∧
      TMap.Find (BuildTemplateVariables c) "PlayerName".toList = some c.CurrentPlayerName ∧
      (∀ k, EqualsIgnoreCase k "NPCName".toList = true →
        TMap.Find (BuildTemplateVariables c) k = some c.NPCName) ∧
      (∀ k, EqualsIgnoreCase k "PlayerName".toList = true →
        TMap.Find (BuildTemplateVariables c) k = some c.CurrentPlayerName) ∧
      (∀ k, EqualsIgnoreCase k "NPCName".toList = false →
        EqualsIgnoreCase k "PlayerName".toList = false →
        TMap.Find (BuildTemplateVariables c) k = TMap.Find c.ExtraTemplateVariables k) ∧
      ∀ k, k ∈ TMap.Keys (BuildTemplateVariables c) →
        k ∈ TMap.Keys c.ExtraTemplateVariables ∨ k = "NPCName".toList ∨
          k = "PlayerName".toList := by
  unfold BuildTemplateVariables
  refine ⟨?_, ?_, ?_, ?_, ?_, ?_⟩
  · rw [BuiltMap_Find, if_neg (by decide), if_pos (by decide)]
  · rw [BuiltMap_Find, if_pos (by decide)]
  · intro k hk
    rw [BuiltMap_Find, not_PlayerName_of_NPCName k hk, hk]
    rfl
  · intro k hk
    rw [BuiltMap_Find, hk]
    rfl
  · intro k hk1 hk2
    rw [BuiltMap_Find, hk1, hk2]
    rfl
  · intro k hk
    rcases TMap_Keys_Add _ _ _ k hk with h | h
    · rcases TMap_Keys_Add _ _ _ k h with h2 | h2
      · exact Or.inl h2
      · exact Or.inr (Or.inl h2)
    · exact Or.inr (Or.inr h)

theorem BuildTemplateVariables_lookup_witness :
    BuildTemplateVariables
          ⟨"Mira".toList, "Greet".toList,
            [("PLAYERNAME".toList, "x".toList), ("Mood".toList, "calm".toList),
              ("NPCName".toList, "y".toList)],
            ESQDialogueState.WaitingForNPC, DefaultLine, "Ann".toList⟩ =
        [("PlayerName".toList, "Ann".toList), ("Mood".toList, "calm".toList),
          ("NPCName".toList, "Mira".toList)] ∧
      TMap.Find
          (BuildTemplateVariables
            ⟨"Mira".toList, "Greet".toList,
              [("PLAYERNAME".toList, "x".toList), ("Mood".toList, "calm".toList),
                ("NPCName".toList, "y".toList)],
              ESQDialogueState.WaitingForNPC, DefaultLine, "Ann".toList⟩)
          "npcname".toList = some "Mira".toList ∧
      TMap.Find
          (BuildTemplateVariables
            ⟨"Mira".toList, "Greet".toList,
              [("PLAYERNAME".toList, "x".toList), ("Mood".toList, "calm".toList),
                ("NPCName".toList, "y".toList)],
              ESQDialogueState.WaitingForNPC, DefaultLine, "Ann".toList⟩)
          "mood".toList = some "calm".toList :=
  ⟨by decide,
    (BuildTemplateVariables_lookup
      ⟨"Mira".toList, "Greet".toList,
        [("PLAYERNAME".toList, "x".toList), ("Mood".toList, "calm".toList),
          ("NPCName".toList, "y".toList)],
        ESQDialogueState.WaitingForNPC, DefaultLine, "Ann".toList⟩).2.2.1
      "npcname".toList (by decide),
    ((BuildTemplateVariables_lookup
      ⟨"Mira".toList, "Greet".toList,
        [("PLAYERNAME".toList, "x".toList), ("Mood".toList, "calm".toList),
          ("NPCName".toList, "y".toList)],
        ESQDialogueState.WaitingForNPC, DefaultLine, "Ann".toList⟩).2.2.2.2.1
      "mood".toList (by decide) (by decide)).trans (by decide)⟩

end SynapseQuest
